import Mathlib

/-!
# Suikoden Stream Control: the browser client `static/js/main.js`

A shallow embedding of the client's state, its inbound-message handlers, its
user gestures and its two renderers, followed by theorems about them.

Conventions of the embedding

* A JavaScript string is the list of its UTF-16 code units (`JsString`), so
  that `charAt(0)`, `===`, `includes` and the default `sort()` order are exact.
* Payloads are JSON trees (`JsVal`).  Reading a property of `null` or
  `undefined`, and calling a method a value does not have, raise a
  `TypeError`: pure expressions return `Option` (`none` is the throw) and
  statements return an `Outcome`, which keeps the state reached at the throw.
* `toUpperCase`, `toLowerCase` and `localeCompare` are built-ins of the host.
  They are parameters (`Env`); what a theorem needs of them is a hypothesis.
* A number of a payload is an integer: the client observes only whether it is
  zero and whether two numbers are equal.
* `socket.emit` and `confirm` do not throw; the answer to `confirm` is an
  argument of the gesture.
* The DOM is a record of what was written to it: the six party positions, the
  roster container, the detail panel, the notices shown, the loading-indicator
  calls, the confirmation dialogs asked and the messages emitted.
-/

namespace Suikoden

/-- A JavaScript string: its UTF-16 code units. -/
abbrev JsString := List Nat

/-- Code units of a text of the Basic Multilingual Plane. -/
def js (s : String) : JsString := s.toList.map Char.toNat

/-- A JSON value, plus `undefined` (the result of reading an absent property). -/
inductive JsVal where
  | undefined
  | null
  | bool (b : Bool)
  | num (n : Int)
  | str (s : JsString)
  | arr (xs : List JsVal)
  | obj (fields : List (String × JsVal))
  deriving Inhabited

namespace JsVal

/-- JavaScript truthiness (`if (v)`, `!v`, `v && ...`). -/
def truthy : JsVal → Bool
  | undefined => false
  | null => false
  | bool b => b
  | num n => n != 0
  | str s => !s.isEmpty
  | arr _ => true
  | obj _ => true

/-- The call `Array.isArray(v)`. -/
def isArray : JsVal → Bool
  | arr _ => true
  | _ => false

/-- Property read `v.k` for the identifiers used by the client.  `none` is the
`TypeError` raised on `null` and `undefined`. -/
def getProp (v : JsVal) (k : String) : Option JsVal :=
  match v with
  | undefined => none
  | null => none
  | obj fields => some ((fields.lookup k).getD undefined)
  | arr xs => some (if k = "length" then num xs.length else undefined)
  | str s => some (if k = "length" then num s.length else undefined)
  | _ => some undefined

/-- Strict equality `a === b`.  Two arrays or objects are equal only when they
are the same reference; values taken from different places of JSON payloads
never are, so the comparison is `false` for them. -/
def strictEq : JsVal → JsVal → Bool
  | undefined, undefined => true
  | null, null => true
  | bool a, bool b => a == b
  | num a, num b => a == b
  | str a, str b => a == b
  | _, _ => false

end JsVal

open JsVal

/-- The host's string built-ins used by the client. -/
structure Env where
  /-- The method `String.prototype.toUpperCase`. -/
  toUpperCase : JsString → JsString
  /-- The method `String.prototype.toLowerCase`. -/
  toLowerCase : JsString → JsString
  /-- The method `String.prototype.localeCompare`: negative, zero or positive. -/
  localeCompare : JsString → JsString → Int

/-- Code-unit comparison `a <= b` of two strings, the order of the default
`Array.prototype.sort()`. -/
def strLe : JsString → JsString → Bool
  | [], _ => true
  | _ :: _, [] => false
  | a :: as, b :: bs => if a < b then true else if b < a then false else strLe as bs

/-- Whether `needle` occurs at the start of `hay`. -/
def startsWith : JsString → JsString → Bool
  | _, [] => true
  | [], _ :: _ => false
  | h :: hs, n :: ns => h == n && startsWith hs ns

/-- The call `hay.includes(needle)` on strings. -/
def includes : JsString → JsString → Bool
  | [], needle => needle.isEmpty
  | h :: hs, needle => startsWith (h :: hs) needle || includes hs needle

/-- Stable insertion of `x` into a list sorted by `le`: `x` goes before the
first element it does not exceed. -/
def insertBy {α : Type} (le : α → α → Bool) (x : α) : List α → List α
  | [] => [x]
  | y :: ys => if le x y then x :: y :: ys else y :: insertBy le x ys

/-- The method `Array.prototype.sort`, a stable sort: for a consistent comparator the
result is the one stable sorted arrangement, computed here by insertion. -/
def sortBy {α : Type} (le : α → α → Bool) : List α → List α
  | [] => []
  | x :: xs => insertBy le x (sortBy le xs)

/-- The method `Array.prototype.findIndex`: the first index whose element satisfies `p`,
or `-1`. -/
def findIndex (p : JsVal → Bool) : List JsVal → Int
  | [] => -1
  | x :: xs => if p x then 0 else
      let r := findIndex p xs
      if r = -1 then -1 else r + 1

/-! ## The client state and what it has written to the page -/

/-- The four kinds of notice of `showToast`. -/
inductive ToastType where
  | info | success | warning | error
  deriving DecidableEq, Inhabited

/-- The texts passed to `showToast`; an interpolated value is kept as a value. -/
inductive ToastText where
  /-- The text `data.message` of `server_info`. -/
  | serverMessage (m : JsVal)
  /-- The text `${data.character.name} added to party`. -/
  | addedToParty (name : JsVal)
  /-- The text `${data.character_name} removed from party`. -/
  | removedFromParty (name : JsVal)
  /-- The text `${data.character_name} moved in party`. -/
  | movedInParty (name : JsVal)
  /-- The text `Party synchronized from external update`. -/
  | partySynchronized
  /-- The text `Error: ${data.message}`. -/
  | serverError (m : JsVal)
  /-- The text `Invalid party data received`. -/
  | invalidPartyData
  /-- The text `Error loading characters data`. -/
  | errorLoadingCharacters
  /-- The text `Error loading party data`. -/
  | errorLoadingParty
  /-- The text `Data loaded successfully`. -/
  | dataLoaded
  /-- The text `Error processing data: ` followed by the fault's message. -/
  | errorProcessingData
  /-- The text `Selected ${character.name}`. -/
  | selected (name : JsVal)
  /-- The text `Moving ${selectedCharacter.name}...`. -/
  | moving (name : JsVal)
  /-- The text `Adding ${selectedCharacter.name}...`. -/
  | adding (name : JsVal)
  /-- The text `Removing ${currentParty[slotIndex].name}...`. -/
  | removing (name : JsVal)
  /-- The text `Please select a character from the 108 Stars list first.`. -/
  | selectFirst
  /-- The text `Application error: ` followed by the fault's message, shown by
  the window's `error` listener. -/
  | applicationError

/-- A notice as shown: its text and its kind. -/
structure Toast where
  text : ToastText
  type : ToastType

/-- The questions put to the user through `confirm`. -/
inductive ConfirmText where
  /-- The text `${name} is already in the party. Move to slot ${slotIndex + 1}?`. -/
  | moveTo (name : JsVal) (slotNumber : Nat)
  /-- The text `Remove ${name} from the party?`. -/
  | remove (name : JsVal)

/-- The messages the client emits on the socket. -/
inductive Outbound where
  | select_character (character_name : JsVal)
  | add_to_party (character_name : JsVal) (slot : Nat)
  | move_character (character_name : JsVal) (from_slot : Int) (to_slot : Nat)
  | remove_from_party (slot : Nat)
  | external_party_update (party : JsVal)

/-- What a party position holds. -/
inductive SlotContent where
  /-- Markup of the document without a `.party-member` element. -/
  | other
  /-- The placeholder `<div class="empty-text">Empty</div>`. -/
  | emptyText
  /-- A `.party-member` element: the image's `alt` and `src`, and the name label. -/
  | member (alt src name : JsVal)

/-- One `.party-slot` element: whether it carries the class `empty`, and its content. -/
structure SlotView where
  emptyClass : Bool
  content : SlotContent

/-- The children of the roster container `#stars-container`. -/
inductive StarElem where
  /-- The markup `<p>No character data available</p>`. -/
  | noData
  /-- The markup `<p class="no-results">No characters found matching "..."</p>`. -/
  | noResults (searchTerm : JsString)
  /-- A `.stars-category` header with its letter. -/
  | category (letter : JsString)
  /-- A `.star-divider`. -/
  | divider
  /-- A `.star-name` entry: its text, the classes `recruited` and `selected`,
  and the character its click handler selects. -/
  | starName (text : JsString) (recruited selected : Bool) (character : JsVal)

/-- The detail panel: name, image and recruitment text. -/
structure DetailPanel where
  nameText : JsVal
  imgSrc : JsVal
  imgAlt : JsVal
  recruitment : JsVal

/-- The module-level variables of the client and the page as the client has
written it.  The logs (`toasts`, `loading`, `confirms`, `outbox`) are newest
first. -/
structure State where
  allCharacters : JsVal
  currentParty : JsVal
  selectedCharacter : JsVal
  partyView : List SlotView
  starsView : List StarElem
  detail : DetailPanel
  toasts : List Toast
  loading : List Bool
  confirms : List ConfirmText
  outbox : List Outbound

/-- The result of running a statement: it completed, or a `TypeError`
propagated out of it; either way the state reached is kept. -/
inductive Outcome where
  | ok (s : State)
  | threw (s : State)

/-- The state a run ended in. -/
def Outcome.state : Outcome → State
  | .ok s => s
  | .threw s => s

/-- Whether a fault propagated out. -/
def Outcome.isThrow : Outcome → Bool
  | .ok _ => false
  | .threw _ => true

/-- Sequencing: the continuation runs only when nothing was thrown. -/
def Outcome.andThen (o : Outcome) (k : State → Outcome) : Outcome :=
  match o with
  | .ok s => k s
  | .threw s => .threw s

/-- The method `Array.prototype.forEach` with a body that may throw. -/
def forEachO {α : Type} (body : State → α → Outcome) : State → List α → Outcome
  | s, [] => .ok s
  | s, x :: xs => (body s x).andThen (fun s1 => forEachO body s1 xs)

/-- The call `showToast(text, type)`. -/
def showToast (s : State) (text : ToastText) (type : ToastType) : State :=
  { s with toasts := ⟨text, type⟩ :: s.toasts }

/-- The call `showLoadingState(isLoading)`. -/
def showLoadingState (s : State) (isLoading : Bool) : State :=
  { s with loading := isLoading :: s.loading }

/-- The call `socket.emit(...)`. -/
def emit (s : State) (m : Outbound) : State :=
  { s with outbox := m :: s.outbox }

/-- The call `confirm(...)`: the question is recorded; the answer is the user's. -/
def askConfirm (s : State) (q : ConfirmText) : State :=
  { s with confirms := q :: s.confirms }

/-- The member `v.name` of a value that is neither `null` nor `undefined`. -/
def nameOf (v : JsVal) : JsVal := (getProp v "name").getD undefined

/-- The test `member => member && member.name === character.name` of
`updateStarsList`, `filterCharacters` and `selectPartySlot`. -/
def sameName (character member : JsVal) : Bool :=
  truthy member && strictEq (nameOf member) (nameOf character)

/-- The placeholder image. -/
def placeholderImg : JsVal := str (js "/static/img/placeholder.png")

/-- The text shown when no recruitment information is known. -/
def noRecruitmentInfo : JsVal := str (js "No recruitment information available.")

/-- The module's initial values, over the party positions of the document. -/
def initialState (doc : List SlotView) : State :=
  { allCharacters := arr []
    currentParty := arr (List.replicate 6 null)
    selectedCharacter := null
    partyView := doc
    starsView := []
    detail := ⟨undefined, undefined, undefined, undefined⟩
    toasts := []
    loading := []
    confirms := []
    outbox := [] }

/-! ## Rendering the party -/

/-- The body of the loop of `updatePartyDisplay` for one position that exists
in the document.  A `.party-member` element already there is reused: only the
image's `src` and the name label are rewritten. -/
def renderSlot (memberData : JsVal) (v : SlotView) : SlotView :=
  if truthy memberData then
    match v.content with
    | .member alt _ _ =>
        ⟨false, .member alt ((getProp memberData "image_url").getD undefined) (nameOf memberData)⟩
    | _ =>
        ⟨false, .member (nameOf memberData) ((getProp memberData "image_url").getD undefined)
          (nameOf memberData)⟩
  else
    ⟨true, .emptyText⟩

/-- The loop `for (let i = 0; i < 6; i++)` of `updatePartyDisplay` over the
positions of the document, position `i` being the `i`-th element of the view;
a position the document lacks is skipped (`continue`). -/
def renderSlots : List JsVal → List SlotView → List SlotView
  | md :: mds, v :: vs => renderSlot md v :: renderSlots mds vs
  | _, vs => vs

/-! ## Rendering the roster -/

/-- The key `character.name.charAt(0).toUpperCase()`; `none` when the
expression throws (no character, or a name that is not a string). -/
def firstLetter (env : Env) (character : JsVal) : Option JsString :=
  match getProp character "name" with
  | some (str n) => some (env.toUpperCase (n.take 1))
  | _ => none

/-- The statements `if (!grouped[k]) grouped[k] = []; grouped[k].push(c)` on
an object kept as its properties in insertion order. -/
def pushGroup (k : JsString) (c : JsVal) :
    List (JsString × List JsVal) → List (JsString × List JsVal)
  | [] => [(k, [c])]
  | (k1, cs) :: rest =>
      if k1 = k then (k1, cs ++ [c]) :: rest else (k1, cs) :: pushGroup k c rest

/-- The first loop of `groupCharactersAlphabetically`. -/
def groupLoop (env : Env) :
    List (JsString × List JsVal) → List JsVal → Option (List (JsString × List JsVal))
  | grouped, [] => some grouped
  | grouped, c :: cs =>
      match firstLetter env c with
      | none => none
      | some k => groupLoop env (pushGroup k c grouped) cs

/-- The string a grouped character is compared by: its name. -/
def nameStr (c : JsVal) : JsString :=
  match getProp c "name" with
  | some (str n) => n
  | _ => []

/-- The comparator `(a, b) => a.name.localeCompare(b.name)` as the test
`compare(a, b) <= 0`.  Every grouped character has a string name. -/
def nameLe (env : Env) (a b : JsVal) : Bool :=
  decide (env.localeCompare (nameStr a) (nameStr b) ≤ 0)

/-- The function `groupCharactersAlphabetically(characters)`. -/
def groupCharactersAlphabetically (env : Env) (characters : List JsVal) :
    Option (List (JsString × List JsVal)) :=
  (groupLoop env [] characters).map
    (fun grouped => grouped.map (fun g => (g.1, sortBy (nameLe env) g.2)))

/-- The expression `currentParty.some(member => member && member.name === character.name)`. -/
def isInParty (party : List JsVal) (character : JsVal) : Bool :=
  party.any (sameName character)

/-- The `.star-name` element created for a character: its text is the name,
it carries `recruited` when the character is in the party, and its click
handler selects the character. -/
def entryOf (party : List JsVal) (character : JsVal) : StarElem :=
  .starName (nameStr character) (isInParty party character) false character

/-- Appending a child to the roster container. -/
def appendStar (s : State) (e : StarElem) : State :=
  { s with starsView := s.starsView ++ [e] }

/-- The body of `groupedCharacters[letter].forEach(character => ...)`: it
throws when `currentParty` has no method `some`. -/
def renderEntry (s : State) (character : JsVal) : Outcome :=
  match s.currentParty with
  | arr party =>
      .ok (appendStar s (entryOf party character))
  | _ => .threw s

/-- The body of `Object.keys(groupedCharacters).sort().forEach(letter => ...)`. -/
def renderGroup (grouped : List (JsString × List JsVal)) (s : State) (letter : JsString) :
    Outcome :=
  forEachO renderEntry (appendStar (appendStar s (.category letter)) .divider)
    ((grouped.lookup letter).getD [])

/-- The rendering shared by `updateStarsList` and `filterCharacters`: the
groups in the order of `Object.keys(groupedCharacters).sort()`.  The keys are
distinct, so their sorted order does not depend on the order `Object.keys`
lists them in. -/
def renderGroups (s : State) (grouped : List (JsString × List JsVal)) : Outcome :=
  forEachO (renderGroup grouped) s (sortBy strLe (grouped.map Prod.fst))

/-- The function `updateStarsList()`. -/
def updateStarsList (env : Env) (s : State) : Outcome :=
  if !truthy s.allCharacters
      || strictEq ((getProp s.allCharacters "length").getD undefined) (num 0) then
    .ok { s with starsView := [.noData] }
  else
    let s1 := { s with starsView := [] }
    match s.allCharacters with
    | arr characters =>
        match groupCharactersAlphabetically env characters with
        | some grouped => renderGroups s1 grouped
        | none => .threw s1
    | _ => .threw s1

/-- The function `updatePartyDisplay(party)`. -/
def updatePartyDisplay (env : Env) (s : State) (party : JsVal) : Outcome :=
  match party with
  | arr slots =>
      if slots.length ≠ 6 then
        .ok (showToast s .invalidPartyData .error)
      else
        updateStarsList env
          { s with currentParty := party, partyView := renderSlots slots s.partyView }
  | _ => .ok (showToast s .invalidPartyData .error)

/-! ## Inbound messages -/

/-- The function `handleInitialData(data)`: the `try` block, then the `catch`. -/
def handleInitialData (env : Env) (s : State) (data : JsVal) : Outcome :=
  let body : Outcome :=
    match getProp data "characters", getProp data "party" with
    | some characters, some party =>
        let s1 :=
          if truthy characters && isArray characters then
            { s with allCharacters := characters }
          else
            { showToast s .errorLoadingCharacters .error with allCharacters := arr [] }
        let o2 :=
          if truthy party && isArray party then
            updatePartyDisplay env s1 party
          else
            .ok (showToast s1 .errorLoadingParty .error)
        (o2.andThen (updateStarsList env)).andThen
          (fun s3 => .ok (showToast (showLoadingState s3 false) .dataLoaded .success))
    | _, _ => .threw s
  match body with
  | .ok s4 => .ok s4
  | .threw s4 => .ok (showLoadingState (showToast s4 .errorProcessingData .error) false)

/-- The notice chosen from `data.action` in the `party_updated` handler;
`none` when reading `data.character.name` throws. -/
def partyUpdatedToast (s : State) (data : JsVal) : Option State :=
  let action := (getProp data "action").getD undefined
  if strictEq action (str (js "add")) then
    match getProp ((getProp data "character").getD undefined) "name" with
    | some n => some (showToast s (.addedToParty n) .success)
    | none => none
  else if strictEq action (str (js "remove")) then
    some (showToast s (.removedFromParty ((getProp data "character_name").getD undefined)) .info)
  else if strictEq action (str (js "move")) then
    some (showToast s (.movedInParty ((getProp data "character_name").getD undefined)) .info)
  else if strictEq action (str (js "full_update")) then
    some (showToast s .partySynchronized .info)
  else
    some s

/-- The handler of `party_updated`. -/
def onPartyUpdated (env : Env) (s : State) (data : JsVal) : Outcome :=
  match getProp data "party" with
  | none => .threw s
  | some party =>
      if truthy party then
        (updatePartyDisplay env s party).andThen (fun s1 =>
          match partyUpdatedToast s1 data with
          | none => .threw s1
          | some s2 => updateStarsList env { s2 with currentParty := party })
      else
        .ok s

/-- The function `displayCharacterDetails(character, recruitmentInfo)`. -/
def displayCharacterDetails (s : State) (character recruitmentInfo : JsVal) : State :=
  if !truthy character then s
  else
    let image_url := (getProp character "image_url").getD undefined
    { s with detail :=
        { nameText := nameOf character
          imgSrc := if truthy image_url then image_url else placeholderImg
          imgAlt := if truthy image_url then nameOf character else s.detail.imgAlt
          recruitment := if truthy recruitmentInfo then recruitmentInfo else noRecruitmentInfo } }

/-- The handler of `character_selected`. -/
def onCharacterSelected (s : State) (data : JsVal) : Outcome :=
  match getProp data "character", getProp data "recruitment_info" with
  | some character, some info => .ok (displayCharacterDetails s character info)
  | _, _ => .threw s

/-- The handler of `server_info`. -/
def onServerInfo (s : State) (data : JsVal) : Outcome :=
  match getProp data "message" with
  | some m => .ok (showToast s (.serverMessage m) .info)
  | none => .threw s

/-- The handler of `server_error`. -/
def onServerError (s : State) (data : JsVal) : Outcome :=
  match getProp data "message" with
  | some m => .ok (showToast s (.serverError m) .error)
  | none => .threw s

/-- The handler of `all_characters_updated`. -/
def onAllCharactersUpdated (env : Env) (s : State) (data : JsVal) : Outcome :=
  match getProp data "characters" with
  | some characters => updateStarsList env { s with allCharacters := characters }
  | none => .threw s

/-- The handler of `initial_data`. -/
def onInitialData (env : Env) (s : State) (data : JsVal) : Outcome :=
  (handleInitialData env s data).andThen (fun s1 => .ok (showLoadingState s1 false))

/-! ## User gestures -/

/-- The loop of `selectCharacter` over the `.star-name` elements: the class
`selected` is removed, and set again where the text is `character.name`.
Reading `character.name` throws when there is no character. -/
def markSelected (character : JsVal) : List StarElem → List StarElem × Bool
  | [] => ([], false)
  | .starName text recruited _ ch :: rest =>
      match getProp character "name" with
      | none => (.starName text recruited false ch :: rest, true)
      | some n =>
          let r := markSelected character rest
          (.starName text recruited (strictEq (str text) n) ch :: r.1, r.2)
  | e :: rest =>
      let r := markSelected character rest
      (e :: r.1, r.2)

/-- The function `selectCharacter(character)`. -/
def selectCharacter (s : State) (character : JsVal) : Outcome :=
  let s1 := { s with selectedCharacter := character }
  let marked := markSelected character s1.starsView
  let s2 := { s1 with starsView := marked.1 }
  if marked.2 then .threw s2
  else
    match getProp character "name", getProp character "recruitment_info" with
    | some n, some info =>
        let s3 := emit s2 (.select_character n)
        let s4 := displayCharacterDetails s3 character info
        .ok (showToast s4 (.selected n) .info)
    | _, _ => .threw s2

/-- The element read `currentParty[slotIndex]`; `none` is the throw on `null`
and `undefined`. -/
def index (v : JsVal) (i : Nat) : Option JsVal :=
  match v with
  | undefined => none
  | null => none
  | arr xs => some (xs.getD i undefined)
  | str cs => some (if i < cs.length then str [cs.getD i 0] else undefined)
  | obj fields => some ((fields.lookup (toString i)).getD undefined)
  | _ => some undefined

/-- The function `selectPartySlot(slotIndex)`; `answer` is what the user
replies should `confirm` be asked.  `socket.emit` does not throw, so the
`catch` arms around it are not entered. -/
def selectPartySlot (s : State) (slotIndex : Nat) (answer : Bool) : Outcome :=
  if truthy s.selectedCharacter then
    match s.currentParty with
    | arr party =>
        let existingSlot := findIndex (sameName s.selectedCharacter) party
        if existingSlot ≠ -1 ∧ existingSlot ≠ (slotIndex : Int) then
          let s1 := askConfirm s (.moveTo (nameOf s.selectedCharacter) (slotIndex + 1))
          if answer then
            let s2 := emit s1
              (.move_character (nameOf s.selectedCharacter) existingSlot slotIndex)
            .ok (showToast s2 (.moving (nameOf s.selectedCharacter)) .info)
          else .ok s1
        else if existingSlot ≠ (slotIndex : Int) then
          let s1 := emit s (.add_to_party (nameOf s.selectedCharacter) slotIndex)
          .ok (showToast s1 (.adding (nameOf s.selectedCharacter)) .info)
        else .ok s
    | _ => .threw s
  else
    match index s.currentParty slotIndex with
    | none => .threw s
    | some member =>
        if truthy member then
          let s1 := askConfirm s (.remove (nameOf member))
          if answer then
            let s2 := emit s1 (.remove_from_party slotIndex)
            .ok (showToast s2 (.removing (nameOf member)) .info)
          else .ok s1
        else
          .ok (showToast s .selectFirst .warning)

/-- The test of the filter of `filterCharacters` on one character; `none`
when it throws (a name, or a truthy role, that is not a string). -/
def matchesSearch (env : Env) (searchTerm : JsString) (character : JsVal) : Option Bool :=
  match getProp character "name" with
  | some (str n) =>
      if includes (env.toLowerCase n) searchTerm then some true
      else
        match (getProp character "role").getD undefined with
        | str r => some (!r.isEmpty && includes (env.toLowerCase r) searchTerm)
        | role => if truthy role then none else some false
  | _ => none

/-- The call `allCharacters.filter(...)` with a test that may throw. -/
def filterO (p : JsVal → Option Bool) : List JsVal → Option (List JsVal)
  | [] => some []
  | c :: cs =>
      match p c with
      | none => none
      | some b =>
          match filterO p cs with
          | none => none
          | some r => some (if b then c :: r else r)

/-- The function `filterCharacters(searchTerm)`. -/
def filterCharacters (env : Env) (s : State) (searchTerm : JsString) : Outcome :=
  if !truthy s.allCharacters then .ok s
  else if searchTerm.isEmpty then updateStarsList env s
  else
    match s.allCharacters with
    | arr characters =>
        match filterO (matchesSearch env searchTerm) characters with
        | none => .threw s
        | some filteredCharacters =>
            let s1 := { s with starsView := [] }
            if filteredCharacters.length = 0 then
              .ok { s1 with starsView := [.noResults searchTerm] }
            else
              match groupCharactersAlphabetically env filteredCharacters with
              | some grouped => renderGroups s1 grouped
              | none => .threw s1
    | _ => .threw s

/-- The listener of the search input: the text typed is lower-cased and
handed to `filterCharacters`. -/
def onSearchInput (env : Env) (s : State) (value : JsString) : Outcome :=
  filterCharacters env s (env.toLowerCase value)

/-- The function `syncPartyToServer()`. -/
def syncPartyToServer (s : State) : Outcome :=
  .ok (emit s (.external_party_update s.currentParty))

/-! ## Runs of the client -/

/-- What can happen to the client: a message of the server, or a gesture of
the user. -/
inductive Event where
  | initial_data (data : JsVal)
  | party_updated (data : JsVal)
  | all_characters_updated (data : JsVal)
  | server_info (data : JsVal)
  | server_error (data : JsVal)
  | character_selected (data : JsVal)
  | pickCharacter (character : JsVal)
  | clickSlot (slotIndex : Nat) (answer : Bool)
  | typeSearch (value : JsString)
  | syncParty

/-- The listener an event runs. -/
def handle (env : Env) (s : State) : Event → Outcome
  | .initial_data d => onInitialData env s d
  | .party_updated d => onPartyUpdated env s d
  | .all_characters_updated d => onAllCharactersUpdated env s d
  | .server_info d => onServerInfo s d
  | .server_error d => onServerError s d
  | .character_selected d => onCharacterSelected s d
  | .pickCharacter c => selectCharacter s c
  | .clickSlot i answer => selectPartySlot s i answer
  | .typeSearch v => onSearchInput env s v
  | .syncParty => syncPartyToServer s

/-- One event, on the page once loaded: a fault that leaves a listener ends
that listener only; the window's `error` listener then shows the notice
`Application error: ...`, and the client goes on from the state reached. -/
def step (env : Env) (s : State) (e : Event) : State :=
  match handle env s e with
  | .ok s1 => s1
  | .threw s1 => showToast s1 .applicationError .error

/-- The state after a sequence of events. -/
def run (env : Env) (s : State) (es : List Event) : State :=
  es.foldl (step env) s

/-- The length of the stored party, when it is an array. -/
def partyLength (s : State) : Option Nat :=
  match s.currentParty with
  | arr xs => some xs.length
  | _ => none

/-! ## Sample data and properties used in the statements -/

/-- An instance of the host's built-ins on which examples are evaluated:
case mapping of the letters `a`-`z`, and comparison by code units. -/
def asciiEnv : Env where
  toUpperCase := fun s => s.map (fun c => if 97 ≤ c ∧ c ≤ 122 then c - 32 else c)
  toLowerCase := fun s => s.map (fun c => if 65 ≤ c ∧ c ≤ 90 then c + 32 else c)
  localeCompare := fun a b => if a = b then 0 else if strLe a b then -1 else 1

/-- A character object with a name only. -/
def character (name : String) : JsVal := obj [("name", str (js name))]

/-- A character object with a name and a role. -/
def characterWithRole (name role : String) : JsVal :=
  obj [("name", str (js name)), ("role", str (js role))]

/-- A document with six empty party positions. -/
def emptyDoc : List SlotView := List.replicate 6 ⟨true, .emptyText⟩

/-- The payload's `characters` field is an array. -/
def charactersWellFormed (data : JsVal) : Bool :=
  match getProp data "characters" with
  | some (arr _) => true
  | _ => false

/-- The payload's `party` field is an array of six elements. -/
def partyWellFormed (data : JsVal) : Bool :=
  match getProp data "party" with
  | some (arr xs) => xs.length == 6
  | _ => false

/-- Between the states `s` and `r` at least one notice of kind `error` was
surfaced, and none of the earlier notices was taken back. -/
def ErrorNoticeSince (s r : State) : Prop :=
  ∃ fresh : List Toast, r.toasts = fresh ++ s.toasts ∧ ∃ t ∈ fresh, t.type = ToastType.error

/-- A roster entry the renderers can handle: its `name` is a string. -/
def isCharacter (c : JsVal) : Bool :=
  match getProp c "name" with
  | some (str _) => true
  | _ => false

/-- The role of a roster entry is a string, or is absent or falsy. -/
def roleOk (c : JsVal) : Bool :=
  match (getProp c "role").getD undefined with
  | str _ => true
  | r => !truthy r

/-- The group letter of a character: the upper-cased first code unit of its name. -/
def keyOf (env : Env) (c : JsVal) : JsString :=
  env.toUpperCase ((nameStr c).take 1)

/-- The elements rendered for one group: the header with its letter, the
divider, and one entry for each member. -/
def groupView (party : List JsVal) (g : JsString × List JsVal) : List StarElem :=
  .category g.1 :: .divider :: g.2.map (entryOf party)

/-- The characters of the entries of a roster view, in the order shown. -/
def shownCharacters : List StarElem → List JsVal
  | [] => []
  | .starName _ _ _ c :: rest => c :: shownCharacters rest
  | _ :: rest => shownCharacters rest

/-- Grouping with `groupCharactersAlphabetically` and concatenating the groups
in the order of `Object.keys(grouped).sort()`. -/
def renderOrder (env : Env) (characters : List JsVal) : Option (List JsVal) :=
  (groupCharactersAlphabetically env characters).map (fun grouped =>
    (sortBy strLe (grouped.map Prod.fst)).flatMap (fun letter =>
      (grouped.lookup letter).getD []))

/-- The string `needle` is a case-insensitive substring of `hay`. -/
def ciIncludes (env : Env) (hay needle : JsString) : Bool :=
  includes (env.toLowerCase hay) (env.toLowerCase needle)

/-- The query is a case-insensitive substring of the character's name or of
its role. -/
def matchesQuery (env : Env) (query : JsString) (c : JsVal) : Bool :=
  ciIncludes env (nameStr c) query ||
    (match (getProp c "role").getD undefined with
     | str r => ciIncludes env r query
     | _ => false)

/-- The groups of a roster over the letters `keys`: the letters in code-unit
order, each with the characters of that letter sorted by the comparator. -/
def groupsOf (env : Env) (cs : List JsVal) (keys : List JsString) :
    List (JsString × List JsVal) :=
  (sortBy strLe keys).map (fun k =>
    (k, sortBy (nameLe env) (cs.filter (fun c => decide (keyOf env c = k)))))

/-- Canonical composition of `o` followed by the combining diaeresis U+0308
into `ö` (U+00F6). -/
def composeDiaeresis : JsString → JsString
  | [] => []
  | 111 :: 776 :: rest => 246 :: composeDiaeresis rest
  | c :: rest => c :: composeDiaeresis rest

/-- An instance of the host's built-ins whose `localeCompare` honours a
canonical equivalence, as ECMAScript requires of it: `o` followed by U+0308
and `ö` compare as equal (result 0) although they are different strings. -/
def canonEnv : Env :=
  { asciiEnv with
    localeCompare := fun a b =>
      asciiEnv.localeCompare (composeDiaeresis a) (composeDiaeresis b) }

/-- A character named Björn, the name written with the letter `ö` (U+00F6). -/
def bjornComposed : JsVal := obj [("name", str [66, 106, 246, 114, 110])]

/-- A character named Björn, the name written with `o` and the combining
diaeresis U+0308. -/
def bjornDecomposed : JsVal := obj [("name", str [66, 106, 111, 776, 114, 110])]

/-- A party member with a name and an image reference. -/
def memberWithImage (name url : String) : JsVal :=
  obj [("name", str (js name)), ("image_url", str (js url))]

/-- The `try` block of `handleInitialData` on its own: whether a fault occurs
while the data is handled is whether this block throws. -/
def initialDataTry (env : Env) (s : State) (data : JsVal) : Outcome :=
  match getProp data "characters", getProp data "party" with
  | some characters, some party =>
      let s1 :=
        if truthy characters && isArray characters then
          { s with allCharacters := characters }
        else
          { showToast s .errorLoadingCharacters .error with allCharacters := arr [] }
      let o2 :=
        if truthy party && isArray party then
          updatePartyDisplay env s1 party
        else
          .ok (showToast s1 .errorLoadingParty .error)
      (o2.andThen (updateStarsList env)).andThen
        (fun s3 => .ok (showToast (showLoadingState s3 false) .dataLoaded .success))
  | _, _ => .threw s

/-- Every entry of a roster view carries the class `recruited` exactly when
some occupied position of the party holds a character whose name is the
entry's name. -/
def MarksMatchParty (party : List JsVal) (view : List StarElem) : Prop :=
  ∀ text recruited selected c, StarElem.starName text recruited selected c ∈ view →
    (recruited = true ↔ ∃ m ∈ party, truthy m = true ∧ nameOf m = str text)

/-- The image reference `memberData.image_url` of a party member. -/
def imageOf (memberData : JsVal) : JsVal := (getProp memberData "image_url").getD undefined

/-- The payload of a `party_updated` message with action `add` that places
Viktor in position 2 of an otherwise empty party. -/
def viktorAdded : JsVal :=
  obj [("party", arr [null, null, memberWithImage "Viktor" "/static/img/viktor.png", null,
          null, null]),
       ("action", str (js "add")),
       ("character", memberWithImage "Viktor" "/static/img/viktor.png")]

/-- A state of the client holding the given roster, party and selection, over
a document with six empty positions. -/
def stateWith (roster party : List JsVal) (selection : JsVal) : State :=
  { initialState emptyDoc with
    allCharacters := arr roster
    currentParty := arr party
    selectedCharacter := selection }

/-- The states `s` and `t` differ at most in the roster container. -/
def SameButStars (s t : State) : Prop :=
  ∃ v, t = { s with starsView := v }

/-! ## Frame lemmas: what the renderers leave alone -/

theorem sameButStars_refl (s : State) : SameButStars s s := ⟨s.starsView, rfl⟩

theorem sameButStars_trans {s t u : State} (h1 : SameButStars s t) (h2 : SameButStars t u) :
    SameButStars s u := by
  obtain ⟨v, rfl⟩ := h1
  obtain ⟨w, rfl⟩ := h2
  exact ⟨w, rfl⟩

theorem forEachO_sameButStars {α : Type} (body : State → α → Outcome)
    (hbody : ∀ s x, SameButStars s (body s x).state) (s : State) (xs : List α) :
    SameButStars s (forEachO body s xs).state := by
  induction xs generalizing s with
  | nil => exact sameButStars_refl s
  | cons x xs ih =>
    have hx := hbody s x
    unfold forEachO
    cases hb : body s x with
    | ok s1 =>
      rw [hb] at hx
      exact sameButStars_trans hx (ih s1)
    | threw s1 =>
      rw [hb] at hx
      exact hx

theorem appendStar_sameButStars (s : State) (e : StarElem) : SameButStars s (appendStar s e) :=
  ⟨_, rfl⟩

theorem renderEntry_sameButStars (s : State) (c : JsVal) :
    SameButStars s (renderEntry s c).state := by
  unfold renderEntry
  split
  · exact appendStar_sameButStars _ _
  · exact sameButStars_refl s

theorem renderGroup_sameButStars (grouped : List (JsString × List JsVal)) (s : State)
    (letter : JsString) : SameButStars s (renderGroup grouped s letter).state := by
  unfold renderGroup
  exact sameButStars_trans
    (sameButStars_trans (appendStar_sameButStars _ _) (appendStar_sameButStars _ _))
    (forEachO_sameButStars _ renderEntry_sameButStars _ _)

theorem renderGroups_sameButStars (s : State) (grouped : List (JsString × List JsVal)) :
    SameButStars s (renderGroups s grouped).state :=
  forEachO_sameButStars _ (renderGroup_sameButStars grouped) _ _

theorem updateStarsList_sameButStars (env : Env) (s : State) :
    SameButStars s (updateStarsList env s).state := by
  unfold updateStarsList
  split
  · exact ⟨_, rfl⟩
  · dsimp only
    split
    · split
      · exact sameButStars_trans ⟨_, rfl⟩ (renderGroups_sameButStars _ _)
      · exact ⟨_, rfl⟩
    · exact ⟨_, rfl⟩

theorem sameButStars_fields {s t : State} (h : SameButStars s t) :
    t.allCharacters = s.allCharacters ∧ t.currentParty = s.currentParty ∧
    t.selectedCharacter = s.selectedCharacter ∧ t.partyView = s.partyView ∧
    t.detail = s.detail ∧ t.toasts = s.toasts ∧ t.loading = s.loading ∧
    t.confirms = s.confirms ∧ t.outbox = s.outbox := by
  obtain ⟨v, rfl⟩ := h
  exact ⟨rfl, rfl, rfl, rfl, rfl, rfl, rfl, rfl, rfl⟩

/-- What `updatePartyDisplay` does to the stored data: a six-element array is
stored, anything else is refused with an error notice. -/
theorem updatePartyDisplay_stored (env : Env) (s : State) (party : JsVal) :
    (updatePartyDisplay env s party).state.allCharacters = s.allCharacters ∧
    (updatePartyDisplay env s party).state.selectedCharacter = s.selectedCharacter ∧
    (updatePartyDisplay env s party).state.outbox = s.outbox ∧
    (updatePartyDisplay env s party).state.confirms = s.confirms ∧
    (((∃ slots, party = arr slots ∧ slots.length = 6) ∧
        (updatePartyDisplay env s party).state.currentParty = party ∧
        (updatePartyDisplay env s party).state.toasts = s.toasts) ∨
     ((¬ ∃ slots, party = arr slots ∧ slots.length = 6) ∧
        (updatePartyDisplay env s party).state.currentParty = s.currentParty ∧
        (updatePartyDisplay env s party).state.toasts
          = ⟨.invalidPartyData, .error⟩ :: s.toasts)) := by
  unfold updatePartyDisplay
  split
  · rename_i slots
    split
    · rename_i hlen
      refine ⟨rfl, rfl, rfl, rfl, Or.inr ⟨?_, rfl, rfl⟩⟩
      rintro ⟨slots1, h1, h2⟩
      cases h1
      exact hlen h2
    · rename_i hlen
      have hlen6 : slots.length = 6 := by simpa using hlen
      have h := sameButStars_fields (updateStarsList_sameButStars env
        { s with currentParty := arr slots, partyView := renderSlots slots s.partyView })
      refine ⟨h.1, h.2.2.1, h.2.2.2.2.2.2.2.2, h.2.2.2.2.2.2.2.1, Or.inl ⟨⟨slots, rfl, hlen6⟩, h.2.1, h.2.2.2.2.2.1⟩⟩
  · rename_i hnot
    refine ⟨rfl, rfl, rfl, rfl, Or.inr ⟨?_, rfl, rfl⟩⟩
    rintro ⟨slots1, h1, _⟩
    exact hnot slots1 h1

/-! ## The stored party across inbound messages (C1) -/

/-- C1, the code at the failing input: from the initial state, one
`party_updated` message whose `party` is the empty array leaves a stored party
of length 0.  `updatePartyDisplay` refuses the array with the error notice
`Invalid party data received`, and the handler stores it all the same. -/
theorem party_updated_stores_refused_party (env : Env) (doc : List SlotView) :
    partyLength (run env (initialState doc)
      [.party_updated (obj [("party", arr []), ("action", str (js "full_update"))])]) = some 0 ∧
    (run env (initialState doc)
      [.party_updated (obj [("party", arr []), ("action", str (js "full_update"))])]).toasts.map
        (fun t => t.type) = [ToastType.info, ToastType.error] :=
  ⟨rfl, rfl⟩

/-! ## Malformed initial snapshots (C2) -/

/-- The end of `handleInitialData` after the party step: the roster is
rendered, and either the success notice or the notice of the `catch` is shown.
Stored data is not touched and one notice is added. -/
theorem handleInitialData_tail (env : Env) (o2 : Outcome) :
    ∀ r, (match (o2.andThen (updateStarsList env)).andThen
              (fun s3 => .ok (showToast (showLoadingState s3 false) .dataLoaded .success)) with
          | .ok s4 => Outcome.ok s4
          | .threw s4 =>
              .ok (showLoadingState (showToast s4 .errorProcessingData .error) false)) = r →
      r.state.allCharacters = o2.state.allCharacters ∧
      r.state.currentParty = o2.state.currentParty ∧
      ∃ t, r.state.toasts = t :: o2.state.toasts := by
  intro r hr
  subst hr
  cases o2 with
  | threw s2 => exact ⟨rfl, rfl, _, rfl⟩
  | ok s2 =>
    have h := sameButStars_fields (updateStarsList_sameButStars env s2)
    simp only [Outcome.andThen, Outcome.state]
    cases hu : updateStarsList env s2 with
    | ok s3 =>
      rw [hu] at h
      exact ⟨h.1, h.2.1, _, congrArg _ h.2.2.2.2.2.1⟩
    | threw s3 =>
      rw [hu] at h
      exact ⟨h.1, h.2.1, _, congrArg _ h.2.2.2.2.2.1⟩

theorem handleInitialData_readable (env : Env) (s : State) (data characters party : JsVal)
    (hc : getProp data "characters" = some characters) (hp : getProp data "party" = some party) :
    ∃ s1 o2, 
      s1 = (if truthy characters && isArray characters then
            { s with allCharacters := characters }
          else
            { showToast s .errorLoadingCharacters .error with allCharacters := arr [] }) ∧
      o2 = (if truthy party && isArray party then
            updatePartyDisplay env s1 party
          else
            .ok (showToast s1 .errorLoadingParty .error)) ∧
      (handleInitialData env s data).state.allCharacters = o2.state.allCharacters ∧
      (handleInitialData env s data).state.currentParty = o2.state.currentParty ∧
      ∃ t, (handleInitialData env s data).state.toasts = t :: o2.state.toasts := by
  refine ⟨_, _, rfl, rfl, ?_⟩
  apply handleInitialData_tail env _ (handleInitialData env s data)
  simp only [handleInitialData, hc, hp]

theorem handleInitialData_unreadable (env : Env) (s : State) (data : JsVal)
    (hc : getProp data "characters" = none) :
    (handleInitialData env s data).state
      = showLoadingState (showToast s .errorProcessingData .error) false := by
  have hp : getProp data "party" = none := by
    cases data <;> simp [getProp] at hc ⊢
  simp only [handleInitialData, hc, hp, Outcome.state]

theorem isArray_eq_true {v : JsVal} (h : isArray v = true) : ∃ xs, v = arr xs := by
  cases v <;> simp [isArray] at h
  exact ⟨_, rfl⟩

theorem getProp_party_of_characters {data c : JsVal} (hc : getProp data "characters" = some c) :
    ∃ p, getProp data "party" = some p := by
  cases data <;> simp [getProp] at hc ⊢

/-- C2 as amended: in `handleInitialData`, when the payload's `characters` field
is missing or not an array, the stored roster afterwards is the empty roster
(or, for a payload that is `null` or `undefined`, whose fields cannot be read,
the roster before), and an error notice is surfaced; when its `party` field is
missing or not a six-element array, the stored party afterwards equals the
party before, and an error notice is surfaced. -/
theorem handleInitialData_malformed (env : Env) (s : State) (data : JsVal) :
    (charactersWellFormed data = false →
      (handleInitialData env s data).state.allCharacters
        = (match getProp data "characters" with
           | some _ => arr []
           | none => s.allCharacters) ∧
      ErrorNoticeSince s (handleInitialData env s data).state) ∧
    (partyWellFormed data = false →
      (handleInitialData env s data).state.currentParty = s.currentParty ∧
      ErrorNoticeSince s (handleInitialData env s data).state) := by
  cases hc : getProp data "characters" with
  | none =>
    have hr := handleInitialData_unreadable env s data hc
    rw [hr]
    exact ⟨fun _ => ⟨rfl, [⟨.errorProcessingData, .error⟩], rfl, _, List.mem_singleton.2 rfl, rfl⟩,
      fun _ => ⟨rfl, [⟨.errorProcessingData, .error⟩], rfl, _, List.mem_singleton.2 rfl, rfl⟩⟩
  | some characters =>
    obtain ⟨party, hp⟩ := getProp_party_of_characters hc
    obtain ⟨s1, o2, hs1, ho2, hA, hP, t, hT⟩ :=
      handleInitialData_readable env s data characters party hc hp
    have hup := updatePartyDisplay_stored env s1 party
    -- facts on o2 relative to s1
    have ho2A : o2.state.allCharacters = s1.allCharacters := by
      rw [ho2]; split
      · exact hup.1
      · rfl
    have ho2T : ∃ pre, o2.state.toasts = pre ++ s1.toasts := by
      rw [ho2]; split
      · rcases hup.2.2.2.2 with h | h
        · exact ⟨[], h.2.2⟩
        · exact ⟨[_], h.2.2⟩
      · exact ⟨[_], rfl⟩
    have hs1T : ∃ pre, s1.toasts = pre ++ s.toasts := by
      rw [hs1]; split
      · exact ⟨[], rfl⟩
      · exact ⟨[_], rfl⟩
    have hs1P : s1.currentParty = s.currentParty := by
      rw [hs1]; split <;> rfl
    constructor
    · intro hbad
      have hnot : (truthy characters && isArray characters) = false := by
        simp only [charactersWellFormed, hc] at hbad
        cases characters <;> simp_all [isArray]
      have hs1' : s1 = { showToast s .errorLoadingCharacters .error with allCharacters := arr [] } := by
        rw [hs1, hnot]; rfl
      refine ⟨by rw [hA, ho2A, hs1'], ?_⟩
      obtain ⟨pre, hpre⟩ := ho2T
      refine ⟨t :: pre ++ [⟨.errorLoadingCharacters, .error⟩], ?_, ⟨.errorLoadingCharacters, .error⟩, by simp, rfl⟩
      rw [hT, hpre, hs1']
      simp [showToast]
    · intro hbad
      simp only [partyWellFormed, hp] at hbad
      obtain ⟨pre1, hpre1⟩ := hs1T
      by_cases hcond : (truthy party && isArray party) = true
      · have ho2' : o2 = updatePartyDisplay env s1 party := by rw [ho2, if_pos hcond]
        rcases hup.2.2.2.2 with h | h
        · exfalso
          obtain ⟨⟨slots, rfl, hlen⟩, _⟩ := h
          simp [hlen] at hbad
        · refine ⟨by rw [hP, ho2', h.2.1, hs1P], ?_⟩
          refine ⟨t :: ⟨.invalidPartyData, .error⟩ :: pre1, ?_, ⟨.invalidPartyData, .error⟩, by simp, rfl⟩
          rw [hT, ho2', h.2.2, hpre1]
          simp
      · have ho2' : o2 = .ok (showToast s1 .errorLoadingParty .error) := by rw [ho2, if_neg hcond]
        refine ⟨by rw [hP, ho2']; exact hs1P, ?_⟩
        refine ⟨t :: ⟨.errorLoadingParty, .error⟩ :: pre1, ?_, ⟨.errorLoadingParty, .error⟩, by simp, rfl⟩
        rw [hT, ho2']
        simp [Outcome.state, showToast, hpre1]

/-- C2, counterexample to the claim as stated: with the roster `[Gremio]`
stored, an initial snapshot without a `characters` field leaves the empty
roster, not the roster before. -/
theorem handleInitialData_roster_not_kept :
    charactersWellFormed (obj [("party", arr (List.replicate 6 null))]) = false ∧
    (handleInitialData asciiEnv (stateWith [character "Gremio"] (List.replicate 6 null) null)
      (obj [("party", arr (List.replicate 6 null))])).state.allCharacters = arr [] ∧
    (handleInitialData asciiEnv (stateWith [character "Gremio"] (List.replicate 6 null) null)
      (obj [("party", arr (List.replicate 6 null))])).state.allCharacters
      ≠ (stateWith [character "Gremio"] (List.replicate 6 null) null).allCharacters := by
  refine ⟨rfl, rfl, ?_⟩
  intro h
  have h1 : arr [] = arr [character "Gremio"] := h
  cases h1

/-- C2, the amended statement at a payload with neither field, over the roster
`[Gremio]` and the party with Viktor in the first position. -/
theorem handleInitialData_malformed_witness :
    ((handleInitialData asciiEnv
        (stateWith [character "Gremio"] (character "Viktor" :: List.replicate 5 null) null)
        (obj [])).state.allCharacters = arr [] ∧
      ErrorNoticeSince
        (stateWith [character "Gremio"] (character "Viktor" :: List.replicate 5 null) null)
        (handleInitialData asciiEnv
          (stateWith [character "Gremio"] (character "Viktor" :: List.replicate 5 null) null)
          (obj [])).state) ∧
    ((handleInitialData asciiEnv
        (stateWith [character "Gremio"] (character "Viktor" :: List.replicate 5 null) null)
        (obj [])).state.currentParty = arr (character "Viktor" :: List.replicate 5 null) ∧
      ErrorNoticeSince
        (stateWith [character "Gremio"] (character "Viktor" :: List.replicate 5 null) null)
        (handleInitialData asciiEnv
          (stateWith [character "Gremio"] (character "Viktor" :: List.replicate 5 null) null)
          (obj [])).state) :=
  ⟨(handleInitialData_malformed asciiEnv
      (stateWith [character "Gremio"] (character "Viktor" :: List.replicate 5 null) null)
      (obj [])).1 rfl,
   (handleInitialData_malformed asciiEnv
      (stateWith [character "Gremio"] (character "Viktor" :: List.replicate 5 null) null)
      (obj [])).2 rfl⟩

/-! ## Targeting a party position (C3 to C6) -/

theorem findIndex_ge (p : JsVal → Bool) (xs : List JsVal) : -1 ≤ findIndex p xs := by
  induction xs with
  | nil => simp [findIndex]
  | cons x xs ih =>
    simp only [findIndex]
    split
    · omega
    · split <;> omega

theorem findIndex_eq_neg_one (p : JsVal → Bool) (xs : List JsVal)
    (h : ∀ m ∈ xs, p m = false) : findIndex p xs = -1 := by
  induction xs with
  | nil => rfl
  | cons x xs ih =>
    have hx : p x = false := h x (List.mem_cons_self _ _)
    have ih1 := ih (fun m hm => h m (List.mem_cons_of_mem _ hm))
    simp [findIndex, hx, ih1]

theorem findIndex_first (p : JsVal → Bool) (xs : List JsVal) (i : Nat)
    (hi : i < xs.length) (hp : p (xs.getD i undefined) = true)
    (hfirst : ∀ j, j < i → p (xs.getD j undefined) = false) :
    findIndex p xs = (i : Int) := by
  induction xs generalizing i with
  | nil => simp at hi
  | cons x xs ih =>
    cases i with
    | zero =>
      have : p x = true := by simpa using hp
      simp [findIndex, this]
    | succ i =>
      have hx : p x = false := by simpa using hfirst 0 (Nat.succ_pos _)
      have ih1 := ih i (by simpa using hi) (by simpa using hp)
        (fun j hj => by simpa using hfirst (j + 1) (Nat.succ_lt_succ hj))
      simp only [findIndex, hx, ih1]
      have : ¬ ((i : Int) = -1) := by omega
      simp [this]

/-- C3, counterexample to the claim as stated: Viktor is selected and seated in
position 0, position 3 is empty and does not hold the selection.  Targeting
position 3 asks for a confirmation; on yes the message is `move_character`
from 0 to 3, not `add_to_party`, and on no nothing is sent. -/
theorem selectPartySlot_empty_target_moves :
    truthy (stateWith [character "Viktor"] (character "Viktor" :: List.replicate 5 null)
      (character "Viktor")).selectedCharacter = true ∧
    truthy ((character "Viktor" :: List.replicate 5 null).getD 3 undefined) = false ∧
    sameName (character "Viktor")
      ((character "Viktor" :: List.replicate 5 null).getD 3 undefined) = false ∧
    (selectPartySlot (stateWith [character "Viktor"] (character "Viktor" :: List.replicate 5 null)
      (character "Viktor")) 3 true).state.outbox
      = [.move_character (str (js "Viktor")) 0 3] ∧
    (selectPartySlot (stateWith [character "Viktor"] (character "Viktor" :: List.replicate 5 null)
      (character "Viktor")) 3 true).state.outbox
      ≠ [.add_to_party (str (js "Viktor")) 3] ∧
    (selectPartySlot (stateWith [character "Viktor"] (character "Viktor" :: List.replicate 5 null)
      (character "Viktor")) 3 false).state.outbox = [] ∧
    (selectPartySlot (stateWith [character "Viktor"] (character "Viktor" :: List.replicate 5 null)
      (character "Viktor")) 3 false).state.confirms.length = 1 := by
  refine ⟨rfl, rfl, rfl, rfl, ?_, rfl, rfl⟩
  intro h
  have h1 : [Outbound.move_character (str (js "Viktor")) 0 3]
      = [.add_to_party (str (js "Viktor")) 3] := h
  cases h1

/-- C3 as amended: when a Selection exists, position `t` is empty and no party
position holds a character with the Selection's name, `selectPartySlot(t)`
sends exactly one message, `add_to_party` with the Selection's name and slot
`t`, asks no confirmation and leaves the stored party unchanged. -/
theorem selectPartySlot_add (s : State) (party : List JsVal) (t : Nat) (answer : Bool)
    (hsel : truthy s.selectedCharacter = true)
    (hparty : s.currentParty = arr party)
    (_hempty : truthy (party.getD t undefined) = false)
    (hnone : ∀ m ∈ party, sameName s.selectedCharacter m = false) :
    (selectPartySlot s t answer).state.outbox
      = .add_to_party (nameOf s.selectedCharacter) t :: s.outbox ∧
    (selectPartySlot s t answer).state.confirms = s.confirms ∧
    (selectPartySlot s t answer).state.currentParty = s.currentParty ∧
    (selectPartySlot s t answer).isThrow = false := by
  have hfi := findIndex_eq_neg_one _ party hnone
  have ht : ¬ ((-1 : Int) = (t : Int)) := by omega
  simp [selectPartySlot, hsel, hparty, hfi, ht, Outcome.state, Outcome.isThrow, emit, showToast]

/-- C3 as amended, at Gremio selected, a party holding only Viktor in position
0, and the empty position 3. -/
theorem selectPartySlot_add_witness :
    (selectPartySlot (stateWith [character "Gremio"] (character "Viktor" :: List.replicate 5 null)
      (character "Gremio")) 3 true).state.outbox
      = .add_to_party (nameOf (character "Gremio")) 3 :: [] ∧
    (selectPartySlot (stateWith [character "Gremio"] (character "Viktor" :: List.replicate 5 null)
      (character "Gremio")) 3 true).state.confirms = [] ∧
    (selectPartySlot (stateWith [character "Gremio"] (character "Viktor" :: List.replicate 5 null)
      (character "Gremio")) 3 true).state.currentParty
      = arr (character "Viktor" :: List.replicate 5 null) ∧
    (selectPartySlot (stateWith [character "Gremio"] (character "Viktor" :: List.replicate 5 null)
      (character "Gremio")) 3 true).isThrow = false :=
  selectPartySlot_add
    (stateWith [character "Gremio"] (character "Viktor" :: List.replicate 5 null)
      (character "Gremio"))
    (character "Viktor" :: List.replicate 5 null) 3 true rfl rfl rfl (by decide)

/-- C4, counterexample to the claim as stated: Viktor is selected and the party
holds a character named Viktor in positions 0 and 1, and Flik in position 2.
The Selection is seated in position 1 and the target 2 is another, non-empty
position; on yes the message carries `from_slot = 0`, not 1. -/
theorem selectPartySlot_move_from_first_seat :
    truthy (character "Viktor") = true ∧
    sameName (character "Viktor")
      ([character "Viktor", character "Viktor", character "Flik", null, null, null].getD 1
        undefined) = true ∧
    truthy ([character "Viktor", character "Viktor", character "Flik", null, null, null].getD 2
        undefined) = true ∧
    (selectPartySlot (stateWith [character "Viktor", character "Flik"]
        [character "Viktor", character "Viktor", character "Flik", null, null, null]
        (character "Viktor")) 2 true).state.outbox
      = [.move_character (str (js "Viktor")) 0 2] ∧
    (selectPartySlot (stateWith [character "Viktor", character "Flik"]
        [character "Viktor", character "Viktor", character "Flik", null, null, null]
        (character "Viktor")) 2 true).state.outbox
      ≠ [.move_character (str (js "Viktor")) 1 2] := by
  refine ⟨rfl, rfl, rfl, rfl, ?_⟩
  intro h
  have h1 : [Outbound.move_character (str (js "Viktor")) 0 2]
      = [.move_character (str (js "Viktor")) 1 2] := h
  cases h1

/-- C4 as amended: when a Selection exists and `seat` is the first position
holding a character with the Selection's name, then for every non-empty target
position `t` other than `seat`, `selectPartySlot(t)` asks one confirmation; on
yes it sends exactly one message, `move_character` with the Selection's name,
`from_slot = seat` and `to_slot = t`; on no it sends nothing; either way the
stored party is unchanged. -/
theorem selectPartySlot_move (s : State) (party : List JsVal) (seat t : Nat) (answer : Bool)
    (hsel : truthy s.selectedCharacter = true)
    (hparty : s.currentParty = arr party)
    (hseat : seat < party.length)
    (hheld : sameName s.selectedCharacter (party.getD seat undefined) = true)
    (hfirst : ∀ j, j < seat → sameName s.selectedCharacter (party.getD j undefined) = false)
    (_hocc : truthy (party.getD t undefined) = true)
    (hts : t ≠ seat) :
    (selectPartySlot s t answer).state.outbox
      = (if answer then
          .move_character (nameOf s.selectedCharacter) seat t :: s.outbox
         else s.outbox) ∧
    (selectPartySlot s t answer).state.confirms
      = .moveTo (nameOf s.selectedCharacter) (t + 1) :: s.confirms ∧
    (selectPartySlot s t answer).state.currentParty = s.currentParty ∧
    (selectPartySlot s t answer).isThrow = false := by
  have hfi := findIndex_first _ party seat hseat hheld hfirst
  have h1 : ¬ ((seat : Int) = -1) := by omega
  have h2 : ¬ ((seat : Int) = (t : Int)) := by omega
  cases answer <;>
    simp [selectPartySlot, hsel, hparty, hfi, h1, h2, Outcome.state, Outcome.isThrow, emit,
      showToast, askConfirm]

/-- C4 as amended, at Viktor selected and seated in position 0 only, Flik in
position 2, target 2, answer yes. -/
theorem selectPartySlot_move_witness :
    (selectPartySlot (stateWith [character "Viktor", character "Flik"]
        [character "Viktor", null, character "Flik", null, null, null]
        (character "Viktor")) 2 true).state.outbox
      = (if true = true then
          .move_character (nameOf (character "Viktor")) ((0 : Nat) : Int) 2 :: []
         else []) ∧
    (selectPartySlot (stateWith [character "Viktor", character "Flik"]
        [character "Viktor", null, character "Flik", null, null, null]
        (character "Viktor")) 2 true).state.confirms
      = .moveTo (nameOf (character "Viktor")) (2 + 1) :: [] ∧
    (selectPartySlot (stateWith [character "Viktor", character "Flik"]
        [character "Viktor", null, character "Flik", null, null, null]
        (character "Viktor")) 2 true).state.currentParty
      = arr [character "Viktor", null, character "Flik", null, null, null] ∧
    (selectPartySlot (stateWith [character "Viktor", character "Flik"]
        [character "Viktor", null, character "Flik", null, null, null]
        (character "Viktor")) 2 true).isThrow = false :=
  selectPartySlot_move
    (stateWith [character "Viktor", character "Flik"]
      [character "Viktor", null, character "Flik", null, null, null] (character "Viktor"))
    [character "Viktor", null, character "Flik", null, null, null] 0 2 true
    rfl rfl (by decide) rfl (by intro j hj; omega) rfl (by decide)

/-- C5: with no Selection, `selectPartySlot(t)` sends a message exactly when
position `t` is occupied and the user confirms, and that message is
`remove_from_party` with slot `t`; when position `t` is occupied the user is
asked exactly one confirmation, `Remove ... from the party?` with the name of
the member of position `t`, whatever the answer; when position `t` is empty
nothing is sent, no confirmation is asked and a warning notice is surfaced.
The stored party is unchanged and nothing is thrown. -/
theorem selectPartySlot_no_selection (s : State) (party : List JsVal) (t : Nat)
    (answer : Bool)
    (hsel : truthy s.selectedCharacter = false)
    (hparty : s.currentParty = arr party) :
    (selectPartySlot s t answer).state.outbox
      = (if truthy (party.getD t undefined) = true ∧ answer = true then
          .remove_from_party t :: s.outbox
         else s.outbox) ∧
    (truthy (party.getD t undefined) = true →
      (selectPartySlot s t answer).state.confirms
        = .remove (nameOf (party.getD t undefined)) :: s.confirms) ∧
    (truthy (party.getD t undefined) = false →
      (selectPartySlot s t answer).state.confirms = s.confirms ∧
      (selectPartySlot s t answer).state.toasts = ⟨.selectFirst, .warning⟩ :: s.toasts) ∧
    (selectPartySlot s t answer).state.currentParty = s.currentParty ∧
    (selectPartySlot s t answer).isThrow = false := by
  have hidx : index (arr party) t = some (party.getD t undefined) := rfl
  cases hocc : truthy (party.getD t undefined) <;> cases answer <;>
    simp only [selectPartySlot, hsel, hparty, hidx, hocc, Outcome.state, Outcome.isThrow, emit,
      showToast, askConfirm] <;> simp

/-- C5 at an occupied position: no Selection, Viktor in position 3, position 3
clicked and the removal confirmed.  The dialog is asked with Viktor's name and
`remove_from_party` with slot 3 is the one message sent. -/
theorem selectPartySlot_no_selection_witness :
    (selectPartySlot (stateWith [character "Viktor"]
        [null, null, null, character "Viktor", null, null] null) 3 true).state.outbox
      = [.remove_from_party 3] ∧
    (selectPartySlot (stateWith [character "Viktor"]
        [null, null, null, character "Viktor", null, null] null) 3 true).state.confirms
      = [.remove (str (js "Viktor"))] ∧
    (selectPartySlot (stateWith [character "Viktor"]
        [null, null, null, character "Viktor", null, null] null) 3 true).state.currentParty
      = arr [null, null, null, character "Viktor", null, null] ∧
    (selectPartySlot (stateWith [character "Viktor"]
        [null, null, null, character "Viktor", null, null] null) 3 true).isThrow = false :=
  ⟨(selectPartySlot_no_selection
      (stateWith [character "Viktor"] [null, null, null, character "Viktor", null, null] null)
      [null, null, null, character "Viktor", null, null] 3 true rfl rfl).1,
   (selectPartySlot_no_selection
      (stateWith [character "Viktor"] [null, null, null, character "Viktor", null, null] null)
      [null, null, null, character "Viktor", null, null] 3 true rfl rfl).2.1 rfl,
   (selectPartySlot_no_selection
      (stateWith [character "Viktor"] [null, null, null, character "Viktor", null, null] null)
      [null, null, null, character "Viktor", null, null] 3 true rfl rfl).2.2.2.1,
   (selectPartySlot_no_selection
      (stateWith [character "Viktor"] [null, null, null, character "Viktor", null, null] null)
      [null, null, null, character "Viktor", null, null] 3 true rfl rfl).2.2.2.2⟩

/-- Targeting a position with no Selection, evaluated.  The scenario of the
specification (all positions empty, position 3 clicked): nothing is sent, no
dialog is asked, one warning notice appears.  Viktor in position 3 and the
removal declined: the dialog is asked, nothing is sent and no notice appears. -/
theorem selectPartySlot_no_selection_scenarios :
    (selectPartySlot (stateWith [] (List.replicate 6 null) null) 3 true).state.outbox.length
      = 0 ∧
    (selectPartySlot (stateWith [] (List.replicate 6 null) null) 3 true).state.confirms.length
      = 0 ∧
    (selectPartySlot (stateWith [] (List.replicate 6 null) null) 3 true).state.toasts.map
      (fun n => n.type) = [ToastType.warning] ∧
    (selectPartySlot (stateWith [character "Viktor"]
        [null, null, null, character "Viktor", null, null] null) 3 false).state.outbox.length
      = 0 ∧
    (selectPartySlot (stateWith [character "Viktor"]
        [null, null, null, character "Viktor", null, null] null) 3 false).state.confirms.length
      = 1 ∧
    (selectPartySlot (stateWith [character "Viktor"]
        [null, null, null, character "Viktor", null, null] null) 3 false).state.toasts.length
      = 0 :=
  ⟨rfl, rfl, rfl, rfl, rfl, rfl⟩

/-- C6, counterexample to the claim as stated: Viktor is selected and the party
holds a character named Viktor in positions 0 and 1.  The target 1 holds a
character with the Selection's name, yet a confirmation is asked and, on yes,
`move_character` from 0 to 1 is sent. -/
theorem selectPartySlot_same_name_not_noop :
    truthy (character "Viktor") = true ∧
    sameName (character "Viktor")
      ((character "Viktor" :: character "Viktor" :: List.replicate 4 null).getD 1 undefined)
      = true ∧
    (selectPartySlot (stateWith [character "Viktor"]
        (character "Viktor" :: character "Viktor" :: List.replicate 4 null)
        (character "Viktor")) 1 true).state.outbox
      = [.move_character (str (js "Viktor")) 0 1] ∧
    (selectPartySlot (stateWith [character "Viktor"]
        (character "Viktor" :: character "Viktor" :: List.replicate 4 null)
        (character "Viktor")) 1 true).state.outbox
      ≠ (stateWith [character "Viktor"]
        (character "Viktor" :: character "Viktor" :: List.replicate 4 null)
        (character "Viktor")).outbox ∧
    (selectPartySlot (stateWith [character "Viktor"]
        (character "Viktor" :: character "Viktor" :: List.replicate 4 null)
        (character "Viktor")) 1 false).state.confirms.length = 1 := by
  refine ⟨rfl, rfl, rfl, ?_, rfl⟩
  intro h
  have h1 : [Outbound.move_character (str (js "Viktor")) 0 1] = [] := h
  cases h1

/-- C6 as amended: with a Selection, when the target `t` is the first position
holding a character whose name equals the Selection's name, `selectPartySlot(t)`
does nothing: no message, no confirmation, and the state (party and Selection
included) is the state before. -/
theorem selectPartySlot_own_slot (s : State) (party : List JsVal) (t : Nat) (answer : Bool)
    (hsel : truthy s.selectedCharacter = true)
    (hparty : s.currentParty = arr party)
    (ht : t < party.length)
    (hheld : sameName s.selectedCharacter (party.getD t undefined) = true)
    (hfirst : ∀ j, j < t → sameName s.selectedCharacter (party.getD j undefined) = false) :
    selectPartySlot s t answer = .ok s := by
  have hfi := findIndex_first _ party t ht hheld hfirst
  simp [selectPartySlot, hsel, hparty, hfi]

/-- C6 as amended, at Viktor selected and seated in position 2 only. -/
theorem selectPartySlot_own_slot_witness :
    selectPartySlot (stateWith [character "Viktor"]
        [null, null, character "Viktor", null, null, null] (character "Viktor")) 2 true
      = .ok (stateWith [character "Viktor"]
        [null, null, character "Viktor", null, null, null] (character "Viktor")) :=
  selectPartySlot_own_slot
    (stateWith [character "Viktor"] [null, null, character "Viktor", null, null, null]
      (character "Viktor"))
    [null, null, character "Viktor", null, null, null] 2 true rfl rfl (by decide) rfl
    (by
      intro j hj
      have hj2 : j = 0 ∨ j = 1 := by omega
      rcases hj2 with rfl | rfl <;> rfl)

/-! ## Gestures leave the stored roster and party alone (C7) -/

theorem displayCharacterDetails_stored (s : State) (c info : JsVal) :
    (displayCharacterDetails s c info).allCharacters = s.allCharacters ∧
    (displayCharacterDetails s c info).currentParty = s.currentParty := by
  unfold displayCharacterDetails
  split <;> exact ⟨rfl, rfl⟩

theorem selectCharacter_stored (s : State) (c : JsVal) :
    (selectCharacter s c).state.allCharacters = s.allCharacters ∧
    (selectCharacter s c).state.currentParty = s.currentParty := by
  unfold selectCharacter
  dsimp only
  split
  · exact ⟨rfl, rfl⟩
  · split
    · exact ⟨(displayCharacterDetails_stored _ _ _).1, (displayCharacterDetails_stored _ _ _).2⟩
    · exact ⟨rfl, rfl⟩

theorem selectPartySlot_stored (s : State) (t : Nat) (answer : Bool) :
    (selectPartySlot s t answer).state.allCharacters = s.allCharacters ∧
    (selectPartySlot s t answer).state.currentParty = s.currentParty := by
  unfold selectPartySlot
  dsimp only
  repeat' split
  all_goals exact ⟨rfl, rfl⟩

theorem filterCharacters_stored (env : Env) (s : State) (term : JsString) :
    (filterCharacters env s term).state.allCharacters = s.allCharacters ∧
    (filterCharacters env s term).state.currentParty = s.currentParty := by
  unfold filterCharacters
  dsimp only
  split
  · exact ⟨rfl, rfl⟩
  · split
    · have h := sameButStars_fields (updateStarsList_sameButStars env s)
      exact ⟨h.1, h.2.1⟩
    · split
      · split
        · exact ⟨rfl, rfl⟩
        · split
          · exact ⟨rfl, rfl⟩
          · split
            · have h := sameButStars_fields
                (renderGroups_sameButStars { s with starsView := [] } (by assumption))
              exact ⟨h.1, h.2.1⟩
            · exact ⟨rfl, rfl⟩
      · exact ⟨rfl, rfl⟩

/-- C7: for every state and every user gesture (picking a character, targeting
a position with either answer to the confirmation, typing a filter, manual
sync) the stored party and the stored roster after the gesture are those
before it. -/
theorem gestures_keep_party_and_roster (env : Env) (s : State) :
    (∀ c, (selectCharacter s c).state.currentParty = s.currentParty ∧
          (selectCharacter s c).state.allCharacters = s.allCharacters) ∧
    (∀ t answer, (selectPartySlot s t answer).state.currentParty = s.currentParty ∧
          (selectPartySlot s t answer).state.allCharacters = s.allCharacters) ∧
    (∀ value, (onSearchInput env s value).state.currentParty = s.currentParty ∧
          (onSearchInput env s value).state.allCharacters = s.allCharacters) ∧
    (∀ term, (filterCharacters env s term).state.currentParty = s.currentParty ∧
          (filterCharacters env s term).state.allCharacters = s.allCharacters) ∧
    ((syncPartyToServer s).state.currentParty = s.currentParty ∧
          (syncPartyToServer s).state.allCharacters = s.allCharacters) :=
  ⟨fun c => ⟨(selectCharacter_stored s c).2, (selectCharacter_stored s c).1⟩,
   fun t answer => ⟨(selectPartySlot_stored s t answer).2, (selectPartySlot_stored s t answer).1⟩,
   fun _ => ⟨(filterCharacters_stored env s _).2, (filterCharacters_stored env s _).1⟩,
   fun term => ⟨(filterCharacters_stored env s term).2, (filterCharacters_stored env s term).1⟩,
   ⟨rfl, rfl⟩⟩

/-! ## Sorting -/

theorem insertBy_perm {α : Type} (le : α → α → Bool) (x : α) (l : List α) :
    (insertBy le x l).Perm (x :: l) := by
  induction l with
  | nil => exact List.Perm.refl _
  | cons y ys ih =>
    simp only [insertBy]
    split
    · exact List.Perm.refl _
    · exact (List.Perm.cons y ih).trans (List.Perm.swap x y ys)

theorem sortBy_perm {α : Type} (le : α → α → Bool) (l : List α) : (sortBy le l).Perm l := by
  induction l with
  | nil => exact List.Perm.refl _
  | cons x xs ih => exact (insertBy_perm le x _).trans (List.Perm.cons x ih)

theorem insertBy_pairwise {α : Type} (le : α → α → Bool)
    (htot : ∀ a b, le a b = true ∨ le b a = true)
    (htrans : ∀ a b c, le a b = true → le b c = true → le a c = true)
    (x : α) (l : List α) (hl : l.Pairwise (fun a b => le a b = true)) :
    (insertBy le x l).Pairwise (fun a b => le a b = true) := by
  induction l with
  | nil => simp [insertBy]
  | cons y ys ih =>
    simp only [insertBy]
    rw [List.pairwise_cons] at hl
    split
    · rename_i hxy
      refine List.pairwise_cons.2 ⟨?_, List.pairwise_cons.2 hl⟩
      intro z hz
      rcases List.mem_cons.1 hz with rfl | hz
      · exact hxy
      · exact htrans _ _ _ hxy (hl.1 z hz)
    · rename_i hxy
      refine List.pairwise_cons.2 ⟨?_, ih hl.2⟩
      intro z hz
      have hz1 : z ∈ x :: ys := (insertBy_perm le x ys).subset hz
      rcases List.mem_cons.1 hz1 with rfl | hz1
      · rcases htot z y with h | h
        · exact absurd h hxy
        · exact h
      · exact hl.1 z hz1

theorem sortBy_pairwise {α : Type} (le : α → α → Bool)
    (htot : ∀ a b, le a b = true ∨ le b a = true)
    (htrans : ∀ a b c, le a b = true → le b c = true → le a c = true)
    (l : List α) : (sortBy le l).Pairwise (fun a b => le a b = true) := by
  induction l with
  | nil => exact List.Pairwise.nil
  | cons x xs ih => exact insertBy_pairwise le htot htrans x _ ih

theorem strLe_total (a b : JsString) : strLe a b = true ∨ strLe b a = true := by
  induction a generalizing b with
  | nil => left; simp [strLe]
  | cons x xs ih =>
    cases b with
    | nil => right; simp [strLe]
    | cons y ys =>
      simp only [strLe]
      rcases Nat.lt_trichotomy x y with h | h | h
      · left; simp [h]
      · subst h; simpa using ih ys
      · right; simp [h]

theorem strLe_trans (a b c : JsString) (hab : strLe a b = true) (hbc : strLe b c = true) :
    strLe a c = true := by
  induction a generalizing b c with
  | nil => simp [strLe]
  | cons x xs ih =>
    cases b with
    | nil => simp [strLe] at hab
    | cons y ys =>
      cases c with
      | nil => simp [strLe] at hbc
      | cons z zs =>
        simp only [strLe] at hab hbc ⊢
        by_cases hxy : x < y
        · by_cases hyz : y < z
          · have : x < z := by omega
            simp [this]
          · by_cases hzy : z < y
            · simp [hyz, hzy] at hbc
            · have : x < z := by omega
              simp [this]
        · by_cases hyx : y < x
          · simp [hxy, hyx] at hab
          · have hxy' : x = y := by omega
            subst hxy'
            simp only [hxy, if_false] at hab
            by_cases hxz : x < z
            · simp [hxz]
            · by_cases hzx : z < x
              · simp [hxz, hzx] at hbc
              · simp only [hxz, hzx, if_false] at hbc ⊢
                exact ih ys zs hab hbc

theorem strLe_antisymm (a b : JsString) (hab : strLe a b = true) (hba : strLe b a = true) :
    a = b := by
  induction a generalizing b with
  | nil =>
    cases b with
    | nil => rfl
    | cons y ys => simp [strLe] at hba
  | cons x xs ih =>
    cases b with
    | nil => simp [strLe] at hab
    | cons y ys =>
      simp only [strLe] at hab hba
      by_cases hxy : x < y
      · have : ¬ y < x := by omega
        simp [hxy, this] at hba
      · by_cases hyx : y < x
        · simp [hxy, hyx] at hab
        · have hxy' : x = y := by omega
          subst hxy'
          simp only [hxy, if_false] at hab hba
          rw [ih ys hab hba]

/-! ## Grouping -/

theorem pushGroup_keys (k : JsString) (c : JsVal) (G : List (JsString × List JsVal)) :
    (pushGroup k c G).map Prod.fst
      = if k ∈ G.map Prod.fst then G.map Prod.fst else G.map Prod.fst ++ [k] := by
  induction G with
  | nil => simp [pushGroup]
  | cons g G ih =>
    obtain ⟨k1, cs⟩ := g
    simp only [pushGroup]
    by_cases h : k1 = k
    · subst h; simp
    · have h' : ¬ k = k1 := fun e => h e.symm
      simp only [h, if_false, List.map_cons, ih, List.mem_cons, h', false_or]
      split <;> simp

theorem lookup_cons_self (k : JsString) (v : List JsVal) (G : List (JsString × List JsVal)) :
    List.lookup k ((k, v) :: G) = some v := by
  simp [List.lookup]

theorem lookup_cons_ne (k k1 : JsString) (v : List JsVal) (G : List (JsString × List JsVal))
    (h : k ≠ k1) : List.lookup k ((k1, v) :: G) = List.lookup k G := by
  have hb : (k == k1) = false := by simpa using h
  simp [List.lookup, hb]

theorem pushGroup_lookup (k : JsString) (c : JsVal) (G : List (JsString × List JsVal))
    (k' : JsString) :
    ((pushGroup k c G).lookup k').getD []
      = if k' = k then (G.lookup k).getD [] ++ [c] else (G.lookup k').getD [] := by
  induction G with
  | nil =>
    by_cases h : k' = k
    · subst h; simp [pushGroup, lookup_cons_self]
    · simp [pushGroup, lookup_cons_ne _ _ _ _ h, h]
  | cons g G ih =>
    obtain ⟨k1, cs⟩ := g
    simp only [pushGroup]
    by_cases h1 : k1 = k
    · subst h1
      by_cases h : k' = k1
      · subst h; simp [lookup_cons_self]
      · simp [lookup_cons_ne _ _ _ _ h, h]
    · simp only [h1, if_false]
      by_cases h : k' = k
      · subst h
        have h2 : k' ≠ k1 := fun e => h1 e.symm
        rw [lookup_cons_ne _ _ _ _ h2, lookup_cons_ne _ _ _ _ h2]
        simpa using ih
      · simp only [h, if_false] at ih ⊢
        by_cases h3 : k' = k1
        · subst h3; simp [lookup_cons_self]
        · rw [lookup_cons_ne _ _ _ _ h3, lookup_cons_ne _ _ _ _ h3]
          exact ih

theorem firstLetter_of_isCharacter (env : Env) (c : JsVal) (h : isCharacter c = true) :
    firstLetter env c = some (keyOf env c) := by
  unfold isCharacter at h
  unfold firstLetter keyOf nameStr
  split at h
  · rename_i n hn
    simp [hn]
  · simp at h

theorem groupLoop_spec (env : Env) (cs : List JsVal) (hwf : ∀ c ∈ cs, isCharacter c = true) :
    ∀ G : List (JsString × List JsVal), ∃ G1, groupLoop env G cs = some G1 ∧
      (∀ k, (G1.lookup k).getD []
          = (G.lookup k).getD [] ++ cs.filter (fun c => decide (keyOf env c = k))) ∧
      ((G.map Prod.fst).Nodup → (G1.map Prod.fst).Nodup) ∧
      (∀ k, k ∈ G1.map Prod.fst ↔ k ∈ G.map Prod.fst ∨ ∃ c ∈ cs, keyOf env c = k) := by
  induction cs with
  | nil =>
    intro G
    exact ⟨G, rfl, by simp, id, by simp⟩
  | cons c cs ih =>
    intro G
    have hc := firstLetter_of_isCharacter env c (hwf c (List.mem_cons_self _ _))
    obtain ⟨G1, h1, h2, h3, h4⟩ :=
      ih (fun x hx => hwf x (List.mem_cons_of_mem _ hx)) (pushGroup (keyOf env c) c G)
    refine ⟨G1, by simp [groupLoop, hc, h1], ?_, ?_, ?_⟩
    · intro k
      rw [h2 k, pushGroup_lookup]
      by_cases hk : k = keyOf env c
      · subst hk; simp
      · have hk' : ¬ keyOf env c = k := fun e => hk e.symm
        simp [hk, hk']
    · intro hnd
      apply h3
      rw [pushGroup_keys]
      split
      · exact hnd
      · rename_i hmem
        exact List.Nodup.append hnd (List.nodup_singleton _) (by simpa using hmem)
    · intro k
      rw [h4 k, pushGroup_keys]
      constructor
      · rintro (h | ⟨x, hx, hxk⟩)
        · split at h
          · exact Or.inl h
          · rcases List.mem_append.1 h with h | h
            · exact Or.inl h
            · right
              exact ⟨c, List.mem_cons_self _ _, (List.mem_singleton.1 h).symm⟩
        · exact Or.inr ⟨x, List.mem_cons_of_mem _ hx, hxk⟩
      · rintro (h | ⟨x, hx, hxk⟩)
        · left
          split
          · exact h
          · exact List.mem_append_left _ h
        · rcases List.mem_cons.1 hx with rfl | hx
          · left
            split
            · rename_i hmem; rw [← hxk]; exact hmem
            · rw [← hxk]; simp
          · exact Or.inr ⟨x, hx, hxk⟩

theorem lookup_map_sorted (env : Env) (G : List (JsString × List JsVal)) (k : JsString) :
    ((G.map (fun g => (g.1, sortBy (nameLe env) g.2))).lookup k).getD []
      = sortBy (nameLe env) ((G.lookup k).getD []) := by
  induction G with
  | nil => simp [List.lookup, sortBy]
  | cons g G ih =>
    obtain ⟨k1, cs⟩ := g
    by_cases h : k = k1
    · subst h; simp [lookup_cons_self]
    · simp only [List.map_cons]
      rw [lookup_cons_ne _ _ _ _ h, lookup_cons_ne _ _ _ _ h]
      exact ih

/-- What `groupCharactersAlphabetically` returns on characters with string
names: one group for each letter that occurs, holding the characters of that
letter in roster order, sorted by the comparator. -/
theorem group_spec (env : Env) (cs : List JsVal) (hwf : ∀ c ∈ cs, isCharacter c = true) :
    ∃ G2, groupCharactersAlphabetically env cs = some G2 ∧
      (G2.map Prod.fst).Nodup ∧
      (∀ k, k ∈ G2.map Prod.fst ↔ ∃ c ∈ cs, keyOf env c = k) ∧
      (∀ k, (G2.lookup k).getD []
          = sortBy (nameLe env) (cs.filter (fun c => decide (keyOf env c = k)))) := by
  obtain ⟨G1, h1, h2, h3, h4⟩ := groupLoop_spec env cs hwf []
  refine ⟨G1.map (fun g => (g.1, sortBy (nameLe env) g.2)), ?_, ?_, ?_, ?_⟩
  · simp [groupCharactersAlphabetically, h1]
  · have : (G1.map (fun g => (g.1, sortBy (nameLe env) g.2))).map Prod.fst = G1.map Prod.fst := by
      simp [List.map_map, Function.comp_def]
    rw [this]
    exact h3 (by simp)
  · intro k
    have : (G1.map (fun g => (g.1, sortBy (nameLe env) g.2))).map Prod.fst = G1.map Prod.fst := by
      simp [List.map_map, Function.comp_def]
    rw [this, h4 k]
    simp
  · intro k
    rw [lookup_map_sorted, h2 k]
    simp [List.lookup]

/-! ## Rendering on a stored party that is an array -/

theorem forEachO_renderEntry (p : List JsVal) (cs : List JsVal) :
    ∀ s : State, s.currentParty = arr p →
      forEachO renderEntry s cs
        = .ok { s with starsView := s.starsView ++ cs.map (entryOf p) } := by
  induction cs with
  | nil => intro s _; simp [forEachO]
  | cons c cs ih =>
    intro s hs
    have h1 : renderEntry s c = .ok (appendStar s (entryOf p c)) := by
      simp [renderEntry, hs]
    simp only [forEachO, h1, Outcome.andThen]
    rw [ih (appendStar s (entryOf p c)) hs]
    simp [appendStar]

theorem renderGroup_ok (p : List JsVal) (G : List (JsString × List JsVal)) (k : JsString)
    (s : State) (hs : s.currentParty = arr p) :
    renderGroup G s k
      = .ok { s with starsView := s.starsView ++ groupView p (k, (G.lookup k).getD []) } := by
  unfold renderGroup
  rw [forEachO_renderEntry p _ (appendStar (appendStar s (.category k)) .divider) hs]
  simp [appendStar, groupView]

theorem forEachO_renderGroup (p : List JsVal) (G : List (JsString × List JsVal))
    (ks : List JsString) :
    ∀ s : State, s.currentParty = arr p →
      forEachO (renderGroup G) s ks
        = .ok { s with starsView :=
            s.starsView ++ ks.flatMap (fun k => groupView p (k, (G.lookup k).getD [])) } := by
  induction ks with
  | nil => intro s _; simp [forEachO]
  | cons k ks ih =>
    intro s hs
    simp only [forEachO, renderGroup_ok p G k s hs, Outcome.andThen]
    rw [ih { s with starsView := s.starsView ++ groupView p (k, (G.lookup k).getD []) } hs]
    simp

theorem filter_disjoint_perm {α : Type} (p q : α → Bool)
    (hpq : ∀ x, p x = true → q x = false) (l : List α) :
    (l.filter p ++ l.filter q).Perm (l.filter (fun x => p x || q x)) := by
  induction l with
  | nil => simp
  | cons x l ih =>
    cases hp : p x with
    | true =>
      have hq := hpq x hp
      simp only [List.filter_cons, hp, hq, if_true, Bool.true_or, List.cons_append]
      simpa using ih.cons x
    | false =>
      cases hq : q x with
      | true =>
        simp only [List.filter_cons, hp, hq, Bool.false_or, if_true]
        exact List.perm_middle.trans (ih.cons x)
      | false =>
        simpa [List.filter_cons, hp, hq] using ih

theorem flatMap_filter_perm {α : Type} (f : α → JsString) (cs : List α) (ks : List JsString)
    (hnd : ks.Nodup) :
    (ks.flatMap (fun k => cs.filter (fun c => decide (f c = k)))).Perm
      (cs.filter (fun c => decide (f c ∈ ks))) := by
  induction ks with
  | nil => simp
  | cons k ks ih =>
    rw [List.nodup_cons] at hnd
    rw [List.flatMap_cons]
    refine ((ih hnd.2).append_left _).trans ?_
    refine (filter_disjoint_perm _ _ ?_ cs).trans ?_
    · intro x hx
      have hx1 : f x = k := by simpa using hx
      simpa [hx1] using hnd.1
    · apply List.Perm.of_eq
      apply List.filter_congr
      intro x _
      simp

theorem groups_perm {α : Type} (f : α → JsString) (cs : List α) (ks : List JsString)
    (hnd : ks.Nodup) (hcover : ∀ c ∈ cs, f c ∈ ks) :
    (ks.flatMap (fun k => cs.filter (fun c => decide (f c = k)))).Perm cs := by
  refine (flatMap_filter_perm f cs ks hnd).trans (List.Perm.of_eq ?_)
  rw [List.filter_eq_self]
  intro c hc
  simpa using hcover c hc

theorem shownCharacters_append (v w : List StarElem) :
    shownCharacters (v ++ w) = shownCharacters v ++ shownCharacters w := by
  induction v with
  | nil => rfl
  | cons e v ih => cases e <;> simp [shownCharacters, ih]

theorem shownCharacters_entries (p cs : List JsVal) :
    shownCharacters (cs.map (entryOf p)) = cs := by
  induction cs with
  | nil => rfl
  | cons c cs ih => simp [shownCharacters, entryOf, ih]

theorem shownCharacters_groups (p : List JsVal) (groups : List (JsString × List JsVal)) :
    shownCharacters (groups.flatMap (groupView p)) = groups.flatMap Prod.snd := by
  induction groups with
  | nil => rfl
  | cons g groups ih =>
    rw [List.flatMap_cons, List.flatMap_cons, shownCharacters_append, ih]
    simp [groupView, shownCharacters, shownCharacters_entries]

/-- Rendering a roster of characters with string names over a stored party
that is an array: the groups are found and every element is appended. -/
theorem renderGroups_spec (env : Env) (s1 : State) (p cs : List JsVal)
    (hparty : s1.currentParty = arr p) (hwf : ∀ c ∈ cs, isCharacter c = true) :
    ∃ G2 keys, groupCharactersAlphabetically env cs = some G2 ∧
      renderGroups s1 G2
        = .ok { s1 with starsView :=
            s1.starsView ++ (groupsOf env cs keys).flatMap (groupView p) } ∧
      renderOrder env cs = some ((groupsOf env cs keys).flatMap Prod.snd) ∧
      keys.Nodup ∧ (∀ k, k ∈ keys ↔ ∃ c ∈ cs, keyOf env c = k) := by
  obtain ⟨G2, h1, h2, h3, h4⟩ := group_spec env cs hwf
  refine ⟨G2, G2.map Prod.fst, h1, ?_, ?_, h2, h3⟩
  · unfold renderGroups
    rw [forEachO_renderGroup p G2 _ s1 hparty]
    simp only [groupsOf, List.flatMap_map, h4, Function.comp_def]
  · simp only [renderOrder, h1, Option.map_some', groupsOf, List.flatMap_map, h4,
      Function.comp_def]

theorem mem_groupsOf {env : Env} {cs : List JsVal} {keys : List JsString}
    {g : JsString × List JsVal} (hg : g ∈ groupsOf env cs keys) :
    g.1 ∈ keys ∧ g.2 = sortBy (nameLe env) (cs.filter (fun c => decide (keyOf env c = g.1))) := by
  simp only [groupsOf, List.mem_map] at hg
  obtain ⟨k, hk, rfl⟩ := hg
  exact ⟨(sortBy_perm strLe keys).subset hk, rfl⟩

theorem groupsOf_perm (env : Env) (cs : List JsVal) (keys : List JsString)
    (hnd : keys.Nodup) (hcover : ∀ c ∈ cs, keyOf env c ∈ keys) :
    ((groupsOf env cs keys).flatMap Prod.snd).Perm cs := by
  simp only [groupsOf, List.flatMap_map, Function.comp_def]
  refine (List.Perm.flatMap_left _ (fun k _ => sortBy_perm (nameLe env) _)).trans ?_
  refine (List.Perm.flatMap_right _ (sortBy_perm strLe keys)).trans ?_
  exact groups_perm (keyOf env) cs keys hnd hcover

theorem groupsOf_members (env : Env) (cs : List JsVal) (keys : List JsString)
    (hkeys : ∀ k ∈ keys, ∃ c ∈ cs, keyOf env c = k) :
    ∀ g ∈ groupsOf env cs keys, g.2 ≠ [] ∧ ∀ c ∈ g.2, c ∈ cs ∧ keyOf env c = g.1 := by
  intro g hg
  obtain ⟨hk, hg2⟩ := mem_groupsOf hg
  constructor
  · obtain ⟨c, hc, hck⟩ := hkeys _ hk
    have hmem : c ∈ g.2 := by
      rw [hg2]
      exact (sortBy_perm _ _).symm.subset (List.mem_filter.2 ⟨hc, by simpa using hck⟩)
    exact List.ne_nil_of_mem hmem
  · intro c hc
    rw [hg2] at hc
    have := List.mem_filter.1 ((sortBy_perm _ _).subset hc)
    exact ⟨this.1, by simpa using this.2⟩

theorem groupsOf_letters_ascending (env : Env) (cs : List JsVal) (keys : List JsString)
    (hnd : keys.Nodup) :
    (groupsOf env cs keys).Pairwise (fun g h => strLe g.1 h.1 = true ∧ g.1 ≠ h.1) := by
  simp only [groupsOf, List.pairwise_map]
  have h1 := sortBy_pairwise strLe strLe_total strLe_trans keys
  have h2 : (sortBy strLe keys).Nodup := (sortBy_perm strLe keys).nodup_iff.2 hnd
  exact h1.and h2

theorem groupsOf_sorted (env : Env) (cs : List JsVal) (keys : List JsString)
    (htot : ∀ a b, env.localeCompare a b ≤ 0 ∨ env.localeCompare b a ≤ 0)
    (htrans : ∀ a b c, env.localeCompare a b ≤ 0 → env.localeCompare b c ≤ 0 →
      env.localeCompare a c ≤ 0) :
    ∀ g ∈ groupsOf env cs keys,
      g.2.Pairwise (fun a b => env.localeCompare (nameStr a) (nameStr b) ≤ 0) := by
  intro g hg
  rw [(mem_groupsOf hg).2]
  have h := sortBy_pairwise (nameLe env)
    (fun a b => by simpa [nameLe] using htot (nameStr a) (nameStr b))
    (fun a b c hab hbc => by
      simp only [nameLe, decide_eq_true_eq] at hab hbc ⊢
      exact htrans _ _ _ hab hbc)
    (cs.filter (fun c => decide (keyOf env c = g.1)))
  exact h.imp (fun h => by simpa [nameLe] using h)

theorem asciiEnv_le_iff (a b : JsString) :
    asciiEnv.localeCompare a b ≤ 0 ↔ strLe a b = true := by
  simp only [asciiEnv]
  by_cases hab : a = b
  · subst hab
    simpa using strLe_total a a
  · by_cases h : strLe a b = true <;> simp [hab, h]

theorem asciiEnv_total (a b : JsString) :
    asciiEnv.localeCompare a b ≤ 0 ∨ asciiEnv.localeCompare b a ≤ 0 := by
  rw [asciiEnv_le_iff, asciiEnv_le_iff]
  exact strLe_total a b

theorem asciiEnv_trans (a b c : JsString) (hab : asciiEnv.localeCompare a b ≤ 0)
    (hbc : asciiEnv.localeCompare b c ≤ 0) : asciiEnv.localeCompare a c ≤ 0 := by
  rw [asciiEnv_le_iff] at hab hbc ⊢
  exact strLe_trans a b c hab hbc

/-! ## The roster view (C8) -/

theorem updateStarsList_wellFormed (env : Env) (s : State) (cs p : List JsVal)
    (hroster : s.allCharacters = arr cs) (hne : cs ≠ [])
    (hwf : ∀ c ∈ cs, isCharacter c = true) (hparty : s.currentParty = arr p) :
    ∃ keys, updateStarsList env s
        = .ok { s with starsView := (groupsOf env cs keys).flatMap (groupView p) } ∧
      renderOrder env cs = some ((groupsOf env cs keys).flatMap Prod.snd) ∧
      keys.Nodup ∧ (∀ k, k ∈ keys ↔ ∃ c ∈ cs, keyOf env c = k) := by
  obtain ⟨G2, keys, h1, h2, h3, h4, h5⟩ :=
    renderGroups_spec env { s with starsView := [] } p cs hparty hwf
  refine ⟨keys, ?_, h3, h4, h5⟩
  have hlen : ¬ ((cs.length : Int) = 0) := by
    have : cs.length ≠ 0 := fun h => hne (List.length_eq_zero.1 h)
    omega
  have hbeq : ((cs.length : Int) == 0) = false := by simpa using hlen
  simp only [updateStarsList, hroster, truthy, getProp, strictEq, Option.getD_some, if_true]
  simp only [hbeq, Bool.not_true, Bool.or_false, Bool.false_eq_true, if_false, h1]
  simpa [hroster] using h2

/-- C8: for every non-empty roster of characters with string names (and a
stored party that is an array, and a consistent comparator), the view made by
`updateStarsList` is a sequence of groups, each a header, a divider and its
entries, such that the entries are the roster's characters, each exactly once;
every entry's header is the upper-cased first code unit of its name; the
headers are in strictly ascending code-unit order; and the entries of a group
are in ascending order of name under `localeCompare`. -/
theorem updateStarsList_grouped (env : Env) (s : State) (cs p : List JsVal)
    (hroster : s.allCharacters = arr cs) (hne : cs ≠ [])
    (hwf : ∀ c ∈ cs, isCharacter c = true) (hparty : s.currentParty = arr p)
    (htot : ∀ a b, env.localeCompare a b ≤ 0 ∨ env.localeCompare b a ≤ 0)
    (htrans : ∀ a b c, env.localeCompare a b ≤ 0 → env.localeCompare b c ≤ 0 →
      env.localeCompare a c ≤ 0) :
    ∃ groups : List (JsString × List JsVal),
      updateStarsList env s = .ok { s with starsView := groups.flatMap (groupView p) } ∧
      (shownCharacters (updateStarsList env s).state.starsView).Perm cs ∧
      (groups.flatMap Prod.snd).Perm cs ∧
      (∀ g ∈ groups, g.2 ≠ [] ∧
        ∀ c ∈ g.2, g.1 = env.toUpperCase ((nameStr c).take 1)) ∧
      groups.Pairwise (fun g h => strLe g.1 h.1 = true ∧ g.1 ≠ h.1) ∧
      (∀ g ∈ groups,
        g.2.Pairwise (fun a b => env.localeCompare (nameStr a) (nameStr b) ≤ 0)) := by
  obtain ⟨keys, h1, _, h3, h4⟩ := updateStarsList_wellFormed env s cs p hroster hne hwf hparty
  have hperm := groupsOf_perm env cs keys h3 (fun c hc => (h4 _).2 ⟨c, hc, rfl⟩)
  refine ⟨groupsOf env cs keys, h1, ?_, hperm, ?_, groupsOf_letters_ascending env cs keys h3,
    groupsOf_sorted env cs keys htot htrans⟩
  · rw [h1]
    simpa [Outcome.state, shownCharacters_groups] using hperm
  · intro g hg
    have h := groupsOf_members env cs keys (fun k hk => (h4 k).1 hk) g hg
    exact ⟨h.1, fun c hc => ((h.2 c hc).2).symm⟩

/-- C8 at the scenario of the specification: the roster Gremio, Viktor, Flik
and an empty party. -/
theorem updateStarsList_grouped_witness :
    ∃ groups : List (JsString × List JsVal),
      updateStarsList asciiEnv
          (stateWith [character "Gremio", character "Viktor", character "Flik"]
            (List.replicate 6 null) null)
        = .ok { stateWith [character "Gremio", character "Viktor", character "Flik"]
                  (List.replicate 6 null) null with
                starsView := groups.flatMap (groupView (List.replicate 6 null)) } ∧
      (shownCharacters (updateStarsList asciiEnv
          (stateWith [character "Gremio", character "Viktor", character "Flik"]
            (List.replicate 6 null) null)).state.starsView).Perm
        [character "Gremio", character "Viktor", character "Flik"] ∧
      (groups.flatMap Prod.snd).Perm
        [character "Gremio", character "Viktor", character "Flik"] ∧
      (∀ g ∈ groups, g.2 ≠ [] ∧
        ∀ c ∈ g.2, g.1 = asciiEnv.toUpperCase ((nameStr c).take 1)) ∧
      groups.Pairwise (fun g h => strLe g.1 h.1 = true ∧ g.1 ≠ h.1) ∧
      (∀ g ∈ groups,
        g.2.Pairwise (fun a b => asciiEnv.localeCompare (nameStr a) (nameStr b) ≤ 0)) :=
  updateStarsList_grouped asciiEnv
    (stateWith [character "Gremio", character "Viktor", character "Flik"]
      (List.replicate 6 null) null)
    [character "Gremio", character "Viktor", character "Flik"] (List.replicate 6 null)
    rfl (by simp) (by decide) rfl asciiEnv_total asciiEnv_trans

/-- The scenario of the specification evaluated: the groups F, G, V, each with
one entry, none marked as recruited. -/
theorem updateStarsList_scenario : (updateStarsList asciiEnv
          (stateWith [character "Gremio", character "Viktor", character "Flik"]
            (List.replicate 6 null) null)).state.starsView
   = [.category (js "F"), .divider, .starName (js "Flik") false false (character "Flik"),
      .category (js "G"), .divider, .starName (js "Gremio") false false (character "Gremio"),
      .category (js "V"), .divider, .starName (js "Viktor") false false (character "Viktor")] := rfl

/-! ## The rendered order and the roster order (C9) -/

theorem canonEnv_total (a b : JsString) :
    canonEnv.localeCompare a b ≤ 0 ∨ canonEnv.localeCompare b a ≤ 0 :=
  asciiEnv_total _ _

theorem canonEnv_trans (a b c : JsString) (hab : canonEnv.localeCompare a b ≤ 0)
    (hbc : canonEnv.localeCompare b c ≤ 0) : canonEnv.localeCompare a c ≤ 0 :=
  asciiEnv_trans _ _ _ hab hbc

/-- C9, counterexample to the claim as stated: two characters whose names are
different strings that `localeCompare` reports as equal (canonically
equivalent spellings of Björn).  The two rosters are permutations of each
other with pairwise distinct names, and each is rendered in its own order. -/
theorem renderOrder_depends_on_roster_order :
    nameStr bjornComposed ≠ nameStr bjornDecomposed ∧
    ([bjornDecomposed, bjornComposed].map nameStr).Nodup ∧
    [bjornDecomposed, bjornComposed].Perm [bjornComposed, bjornDecomposed] ∧
    canonEnv.localeCompare (nameStr bjornComposed) (nameStr bjornDecomposed) = 0 ∧
    renderOrder canonEnv [bjornDecomposed, bjornComposed]
      = some [bjornDecomposed, bjornComposed] ∧
    renderOrder canonEnv [bjornComposed, bjornDecomposed]
      = some [bjornComposed, bjornDecomposed] ∧
    renderOrder canonEnv [bjornDecomposed, bjornComposed]
      ≠ renderOrder canonEnv [bjornComposed, bjornDecomposed] := by
  have h1 : renderOrder canonEnv [bjornDecomposed, bjornComposed]
      = some [bjornDecomposed, bjornComposed] := rfl
  have h2 : renderOrder canonEnv [bjornComposed, bjornDecomposed]
      = some [bjornComposed, bjornDecomposed] := rfl
  refine ⟨by decide, by decide, List.Perm.swap _ _ _, rfl, h1, h2, ?_⟩
  rw [h1, h2]
  intro h
  have h3 := congrArg (fun o => o.map (List.map nameStr)) h
  revert h3
  decide

/-- The order in which a roster is rendered: by group letter, then by name. -/
theorem renderOrder_spec (env : Env) (cs : List JsVal)
    (hwf : ∀ c ∈ cs, isCharacter c = true)
    (htot : ∀ a b, env.localeCompare a b ≤ 0 ∨ env.localeCompare b a ≤ 0)
    (htrans : ∀ a b c, env.localeCompare a b ≤ 0 → env.localeCompare b c ≤ 0 →
      env.localeCompare a c ≤ 0) :
    ∃ flat, renderOrder env cs = some flat ∧ flat.Perm cs ∧
      flat.Pairwise (fun a b =>
        (strLe (keyOf env a) (keyOf env b) = true ∧ keyOf env a ≠ keyOf env b) ∨
        (keyOf env a = keyOf env b ∧ env.localeCompare (nameStr a) (nameStr b) ≤ 0)) := by
  obtain ⟨_, keys, _, _, h3, h4, h5⟩ :=
    renderGroups_spec env (stateWith [] [] null) [] cs rfl hwf
  have hmem := groupsOf_members env cs keys (fun k hk => (h5 k).1 hk)
  refine ⟨_, h3, groupsOf_perm env cs keys h4 (fun c hc => (h5 _).2 ⟨c, hc, rfl⟩), ?_⟩
  rw [List.pairwise_flatMap]
  constructor
  · intro g hg
    refine List.Pairwise.imp_of_mem ?_ (groupsOf_sorted env cs keys htot htrans g hg)
    intro a b ha hb hab
    exact Or.inr ⟨((hmem g hg).2 a ha).2.trans ((hmem g hg).2 b hb).2.symm, hab⟩
  · refine List.Pairwise.imp_of_mem ?_ (groupsOf_letters_ascending env cs keys h4)
    intro g h hg hh hgh x hx y hy
    rw [← ((hmem g hg).2 x hx).2, ← ((hmem h hh).2 y hy).2] at hgh
    exact Or.inl hgh

/-- C9 as amended: for every two rosters of characters with string names that
are permutations of each other, whose names are pairwise distinct and no two
of whose names tie under `localeCompare`, grouping with
`groupCharactersAlphabetically` and concatenating the groups in sorted-letter
order succeeds and yields the same sequence of characters. -/
theorem renderOrder_perm (env : Env) (r1 r2 : List JsVal)
    (hwf : ∀ c ∈ r1, isCharacter c = true)
    (hnames : (r1.map nameStr).Nodup)
    (hperm : r1.Perm r2)
    (htot : ∀ a b, env.localeCompare a b ≤ 0 ∨ env.localeCompare b a ≤ 0)
    (htrans : ∀ a b c, env.localeCompare a b ≤ 0 → env.localeCompare b c ≤ 0 →
      env.localeCompare a c ≤ 0)
    (hties : ∀ a ∈ r1, ∀ b ∈ r1, env.localeCompare (nameStr a) (nameStr b) ≤ 0 →
      env.localeCompare (nameStr b) (nameStr a) ≤ 0 → nameStr a = nameStr b) :
    renderOrder env r1 = renderOrder env r2 ∧ (renderOrder env r1).isSome = true := by
  obtain ⟨f1, e1, p1, s1⟩ := renderOrder_spec env r1 hwf htot htrans
  obtain ⟨f2, e2, p2, s2⟩ := renderOrder_spec env r2
    (fun c hc => hwf c (hperm.symm.subset hc)) htot htrans
  have hinj : ∀ a ∈ r1, ∀ b ∈ r1, nameStr a = nameStr b → a = b :=
    fun a ha b hb h => List.inj_on_of_nodup_map hnames ha hb h
  have heq : f1 = f2 := by
    refine List.Perm.eq_of_sorted ?_ s1 s2 (p1.trans (hperm.trans p2.symm))
    intro a b ha hb hab hba
    have ha1 : a ∈ r1 := p1.subset ha
    have hb1 : b ∈ r1 := hperm.symm.subset (p2.subset hb)
    rcases hab with ⟨hle, hne⟩ | ⟨hk, hle⟩
    · rcases hba with ⟨hle2, _⟩ | ⟨hk2, _⟩
      · exact absurd (strLe_antisymm _ _ hle hle2) hne
      · exact absurd hk2.symm hne
    · rcases hba with ⟨_, hne2⟩ | ⟨_, hle2⟩
      · exact absurd hk.symm hne2
      · exact hinj a ha1 b hb1 (hties a ha1 b hb1 hle hle2)
  rw [e1, e2, heq]
  exact ⟨rfl, rfl⟩

/-- C9 as amended, at the roster Gremio, Viktor, Flik, Valeria and the same
roster reversed. -/
theorem renderOrder_perm_witness :
    renderOrder asciiEnv
        [character "Gremio", character "Viktor", character "Flik", character "Valeria"]
      = renderOrder asciiEnv
        [character "Valeria", character "Flik", character "Viktor", character "Gremio"] ∧
    (renderOrder asciiEnv
        [character "Gremio", character "Viktor", character "Flik", character "Valeria"]).isSome
      = true :=
  renderOrder_perm asciiEnv
    [character "Gremio", character "Viktor", character "Flik", character "Valeria"]
    [character "Valeria", character "Flik", character "Viktor", character "Gremio"]
    (by decide) (by decide)
    (List.reverse_perm
      [character "Valeria", character "Flik", character "Viktor", character "Gremio"])
    asciiEnv_total asciiEnv_trans
    (fun a _ b _ hab hba =>
      strLe_antisymm _ _ ((asciiEnv_le_iff _ _).1 hab) ((asciiEnv_le_iff _ _).1 hba))

/-! ## The live filter (C10) -/

theorem matchesSearch_wellFormed (env : Env) (q : JsString) (c : JsVal)
    (hc : isCharacter c = true) (hr : roleOk c = true)
    (hq : env.toLowerCase q ≠ []) (hlow : env.toLowerCase [] = []) :
    matchesSearch env (env.toLowerCase q) c = some (matchesQuery env q c) := by
  unfold isCharacter at hc
  unfold roleOk at hr
  unfold matchesSearch matchesQuery ciIncludes nameStr
  split at hc
  · rename_i n hn
    by_cases hinc : includes (env.toLowerCase n) (env.toLowerCase q) = true
    · simp [hinc]
    · simp only [hinc, if_false, Bool.false_eq_true, Bool.false_or]
      generalize (getProp c "role").getD undefined = role at hr ⊢
      cases role with
      | str r =>
        cases r with
        | nil =>
          have : includes [] (env.toLowerCase q) = false := by
            cases hl : env.toLowerCase q with
            | nil => exact absurd hl hq
            | cons a as => simp [includes]
          simp [hlow, this]
        | cons a as => simp
      | undefined => simp [truthy]
      | null => simp [truthy]
      | bool b => simp [truthy] at hr ⊢; simp [hr]
      | num n => simp [truthy] at hr ⊢; simp [hr]
      | arr xs => simp [truthy] at hr
      | obj fs => simp [truthy] at hr
  · simp at hc

theorem filterO_spec (p : JsVal → Option Bool) (b : JsVal → Bool) (cs : List JsVal)
    (h : ∀ c ∈ cs, p c = some (b c)) : filterO p cs = some (cs.filter b) := by
  induction cs with
  | nil => rfl
  | cons c cs ih =>
    have hc := h c (List.mem_cons_self _ _)
    have ih1 := ih (fun x hx => h x (List.mem_cons_of_mem _ hx))
    simp only [filterO, hc, ih1, List.filter_cons]

/-- What the search listener shows on a well-formed roster: the entries are
the roster's characters that match the query, whatever their order. -/
theorem onSearchInput_view (env : Env) (s : State) (cs p : List JsVal) (q : JsString)
    (hroster : s.allCharacters = arr cs)
    (hwf : ∀ c ∈ cs, isCharacter c = true ∧ roleOk c = true)
    (hparty : s.currentParty = arr p)
    (hq : q ≠ [])
    (hlow : ∀ t, env.toLowerCase t = [] ↔ t = []) :
    (onSearchInput env s q).isThrow = false ∧
    (shownCharacters (onSearchInput env s q).state.starsView).Perm
      (cs.filter (matchesQuery env q)) := by
  have hq1 : env.toLowerCase q ≠ [] := fun h => hq ((hlow q).1 h)
  have hempty : (env.toLowerCase q).isEmpty = false := by
    cases h : env.toLowerCase q with
    | nil => exact absurd h hq1
    | cons a as => rfl
  have hfilter := filterO_spec (matchesSearch env (env.toLowerCase q)) (matchesQuery env q) cs
    (fun c hc => matchesSearch_wellFormed env q c (hwf c hc).1 (hwf c hc).2 hq1 ((hlow []).2 rfl))
  obtain ⟨roster, party, sel, pv, sv, det, toasts, loading, confirms, outbox⟩ := s
  simp only at hroster hparty
  subst hroster
  subst hparty
  simp only [onSearchInput, filterCharacters, truthy, hempty, hfilter, Bool.not_true,
    Bool.false_eq_true, if_false]
  by_cases hnil : cs.filter (matchesQuery env q) = []
  · simp [hnil, Outcome.isThrow, Outcome.state, shownCharacters]
  · have hlen : ¬ ((cs.filter (matchesQuery env q)).length = 0) :=
      fun h => hnil (List.length_eq_zero.1 h)
    simp only [hlen, if_false]
    obtain ⟨G2, keys, h1, h2, _, h4, h5⟩ :=
      renderGroups_spec env
        { allCharacters := arr cs, currentParty := arr p, selectedCharacter := sel,
          partyView := pv, starsView := [], detail := det, toasts := toasts,
          loading := loading, confirms := confirms, outbox := outbox }
        p (cs.filter (matchesQuery env q)) rfl
        (fun c hc => (hwf c (List.mem_filter.1 hc).1).1)
    simp only [h1, h2, Outcome.isThrow, Outcome.state, List.nil_append, shownCharacters_groups,
      true_and]
    exact groupsOf_perm env _ keys h4 (fun c hc => (h5 _).2 ⟨c, hc, rfl⟩)

theorem asciiEnv_lower_nil (t : JsString) : asciiEnv.toLowerCase t = [] ↔ t = [] := by
  simp [asciiEnv]

/-- C10: for every roster of well-formed characters and every non-empty query
typed in the search input, in any letter case, the characters shown by the
filter all belong to the roster, every one of them has the query as a
case-insensitive substring of its name or of its role, and every roster
character with that property is shown. -/
theorem onSearchInput_shown (env : Env) (s : State) (cs p : List JsVal) (q : JsString)
    (hroster : s.allCharacters = arr cs)
    (hwf : ∀ c ∈ cs, isCharacter c = true ∧ roleOk c = true)
    (hparty : s.currentParty = arr p)
    (hq : q ≠ [])
    (hlow : ∀ t, env.toLowerCase t = [] ↔ t = []) :
    (onSearchInput env s q).isThrow = false ∧
    (∀ c ∈ shownCharacters (onSearchInput env s q).state.starsView, c ∈ cs) ∧
    (∀ c ∈ shownCharacters (onSearchInput env s q).state.starsView,
      matchesQuery env q c = true) ∧
    (∀ c ∈ cs, matchesQuery env q c = true →
      c ∈ shownCharacters (onSearchInput env s q).state.starsView) := by
  obtain ⟨h1, h2⟩ := onSearchInput_view env s cs p q hroster hwf hparty hq hlow
  refine ⟨h1, ?_, ?_, ?_⟩
  · intro c hc
    exact (List.mem_filter.1 (h2.subset hc)).1
  · intro c hc
    exact (List.mem_filter.1 (h2.subset hc)).2
  · intro c hc hm
    exact h2.symm.subset (List.mem_filter.2 ⟨hc, hm⟩)

/-- C10 at the roster Gremio (a bodyguard), Viktor (a mercenary) and Flik, and
the query `VIK` typed in capitals. -/
theorem onSearchInput_shown_witness :
    (onSearchInput asciiEnv
      (stateWith [characterWithRole "Gremio" "Bodyguard", characterWithRole "Viktor" "Mercenary",
        character "Flik"] (List.replicate 6 null) null) (js "VIK")).isThrow = false ∧
    (∀ c ∈ shownCharacters (onSearchInput asciiEnv
        (stateWith [characterWithRole "Gremio" "Bodyguard",
          characterWithRole "Viktor" "Mercenary", character "Flik"]
          (List.replicate 6 null) null) (js "VIK")).state.starsView,
      c ∈ [characterWithRole "Gremio" "Bodyguard", characterWithRole "Viktor" "Mercenary",
        character "Flik"]) ∧
    (∀ c ∈ shownCharacters (onSearchInput asciiEnv
        (stateWith [characterWithRole "Gremio" "Bodyguard",
          characterWithRole "Viktor" "Mercenary", character "Flik"]
          (List.replicate 6 null) null) (js "VIK")).state.starsView,
      matchesQuery asciiEnv (js "VIK") c = true) ∧
    (∀ c ∈ [characterWithRole "Gremio" "Bodyguard", characterWithRole "Viktor" "Mercenary",
        character "Flik"],
      matchesQuery asciiEnv (js "VIK") c = true →
      c ∈ shownCharacters (onSearchInput asciiEnv
        (stateWith [characterWithRole "Gremio" "Bodyguard",
          characterWithRole "Viktor" "Mercenary", character "Flik"]
          (List.replicate 6 null) null) (js "VIK")).state.starsView) :=
  onSearchInput_shown asciiEnv
    (stateWith [characterWithRole "Gremio" "Bodyguard", characterWithRole "Viktor" "Mercenary",
      character "Flik"] (List.replicate 6 null) null)
    [characterWithRole "Gremio" "Bodyguard", characterWithRole "Viktor" "Mercenary",
      character "Flik"]
    (List.replicate 6 null) (js "VIK") rfl (by decide) rfl (by decide) asciiEnv_lower_nil

/-- The filter evaluated: the query `VIK` shows Viktor alone, and the query
`guard` shows Gremio, matched by role. -/
theorem onSearchInput_scenario :
    shownCharacters (onSearchInput asciiEnv
      (stateWith [characterWithRole "Gremio" "Bodyguard", characterWithRole "Viktor" "Mercenary",
        character "Flik"] (List.replicate 6 null) null) (js "VIK")).state.starsView
      = [characterWithRole "Viktor" "Mercenary"] ∧
    shownCharacters (onSearchInput asciiEnv
      (stateWith [characterWithRole "Gremio" "Bodyguard", characterWithRole "Viktor" "Mercenary",
        character "Flik"] (List.replicate 6 null) null) (js "guard")).state.starsView
      = [characterWithRole "Gremio" "Bodyguard"] :=
  ⟨rfl, rfl⟩

/-! ## The party view (C12, C14, C15) -/

theorem renderSlots_length (slots : List JsVal) (view : List SlotView) :
    (renderSlots slots view).length = view.length := by
  induction slots generalizing view with
  | nil => cases view <;> rfl
  | cons md mds ih =>
    cases view with
    | nil => rfl
    | cons v vs => simp [renderSlots, ih]

theorem renderSlots_getElem (slots : List JsVal) (view : List SlotView) (i : Nat)
    (hs : i < slots.length) (hv : i < view.length) :
    (renderSlots slots view)[i]? = some (renderSlot (slots.getD i undefined) (view.get ⟨i, hv⟩)) := by
  induction slots generalizing view i with
  | nil => simp at hs
  | cons md mds ih =>
    cases view with
    | nil => simp at hv
    | cons v vs =>
      cases i with
      | zero => simp [renderSlots]
      | succ i =>
        simp only [renderSlots, List.getElem?_cons_succ, List.getD_cons_succ]
        rw [ih vs i (by simpa using hs) (by simpa using hv)]
        simp

theorem renderSlot_idem (md : JsVal) (v : SlotView) :
    renderSlot md (renderSlot md v) = renderSlot md v := by
  unfold renderSlot
  cases truthy md
  · rfl
  · obtain ⟨e, content⟩ := v
    cases content <;> rfl

theorem renderSlots_idem (slots : List JsVal) (view : List SlotView) :
    renderSlots slots (renderSlots slots view) = renderSlots slots view := by
  induction slots generalizing view with
  | nil => cases view <;> rfl
  | cons md mds ih =>
    cases view with
    | nil => rfl
    | cons v vs => simp [renderSlots, ih, renderSlot_idem]

/-- What `updatePartyDisplay` does to the party view: a six-element array is
rendered over the positions, anything else leaves them alone. -/
theorem updatePartyDisplay_partyView (env : Env) (s : State) (party : JsVal) :
    ((∃ slots, party = arr slots ∧ slots.length = 6 ∧
        (updatePartyDisplay env s party).state.partyView = renderSlots slots s.partyView ∧
        (updatePartyDisplay env s party).state.currentParty = party) ∨
     ((¬ ∃ slots, party = arr slots ∧ slots.length = 6) ∧
        (updatePartyDisplay env s party).state.partyView = s.partyView ∧
        (updatePartyDisplay env s party).state.currentParty = s.currentParty)) := by
  unfold updatePartyDisplay
  split
  · rename_i slots
    split
    · rename_i hlen
      refine Or.inr ⟨?_, rfl, rfl⟩
      rintro ⟨slots1, h1, h2⟩
      cases h1
      exact hlen h2
    · rename_i hlen
      have hlen6 : slots.length = 6 := by simpa using hlen
      have h := sameButStars_fields (updateStarsList_sameButStars env
        { s with currentParty := arr slots, partyView := renderSlots slots s.partyView })
      exact Or.inl ⟨slots, rfl, hlen6, h.2.2.2.1, h.2.1⟩
  · rename_i hnot
    refine Or.inr ⟨?_, rfl, rfl⟩
    rintro ⟨slots1, h1, _⟩
    exact hnot slots1 h1

theorem renderSlot_spec (md : JsVal) (v : SlotView) :
    ((renderSlot md v).content = .emptyText ↔ truthy md = false) ∧
    (truthy md = false → renderSlot md v = ⟨true, .emptyText⟩) ∧
    (truthy md = true → (renderSlot md v).emptyClass = false ∧
      ∃ alt, (renderSlot md v).content = .member alt (imageOf md) (nameOf md)) := by
  unfold renderSlot imageOf
  obtain ⟨e, content⟩ := v
  cases h : truthy md <;> cases content <;> simp

/-- C12: for every valid six-element party snapshot and every prior party view
of six positions, after `updatePartyDisplay(snapshot)` the view has exactly six
positions; position `i` is the empty placeholder exactly when `snapshot[i]`
is empty, and otherwise shows the name and the image reference of
`snapshot[i]`; and the stored party is the snapshot. -/
theorem updatePartyDisplay_view (env : Env) (s : State) (slots : List JsVal)
    (hlen : slots.length = 6) (hview : s.partyView.length = 6) :
    (updatePartyDisplay env s (arr slots)).state.partyView.length = 6 ∧
    (updatePartyDisplay env s (arr slots)).state.currentParty = arr slots ∧
    ∀ i, i < 6 → ∃ v, (updatePartyDisplay env s (arr slots)).state.partyView[i]? = some v ∧
      (v.content = .emptyText ↔ truthy (slots.getD i undefined) = false) ∧
      (truthy (slots.getD i undefined) = false → v = ⟨true, .emptyText⟩) ∧
      (truthy (slots.getD i undefined) = true → v.emptyClass = false ∧
        ∃ alt, v.content
          = .member alt (imageOf (slots.getD i undefined)) (nameOf (slots.getD i undefined))) := by
  rcases updatePartyDisplay_partyView env s (arr slots) with ⟨slots1, h1, _, h3, h4⟩ | ⟨hnot, _, _⟩
  · cases h1
    refine ⟨by rw [h3, renderSlots_length, hview], h4, ?_⟩
    intro i hi
    have hv : i < s.partyView.length := by omega
    refine ⟨_, by rw [h3]; exact renderSlots_getElem slots s.partyView i (by omega) hv, ?_⟩
    exact renderSlot_spec _ _
  · exact absurd ⟨slots, rfl, hlen⟩ hnot

/-- C12 at the scenario of the specification: Viktor placed in position 2 of an
otherwise empty party, over a document with six empty positions. -/
theorem updatePartyDisplay_view_witness :
    (updatePartyDisplay asciiEnv (stateWith [character "Viktor"] (List.replicate 6 null) null)
      (arr [null, null, memberWithImage "Viktor" "/static/img/viktor.png", null, null, null])
      ).state.partyView.length = 6 ∧
    (updatePartyDisplay asciiEnv (stateWith [character "Viktor"] (List.replicate 6 null) null)
      (arr [null, null, memberWithImage "Viktor" "/static/img/viktor.png", null, null, null])
      ).state.currentParty
      = arr [null, null, memberWithImage "Viktor" "/static/img/viktor.png", null, null, null] ∧
    ∀ i, i < 6 → ∃ v, (updatePartyDisplay asciiEnv
        (stateWith [character "Viktor"] (List.replicate 6 null) null)
        (arr [null, null, memberWithImage "Viktor" "/static/img/viktor.png", null, null, null])
        ).state.partyView[i]? = some v ∧
      (v.content = .emptyText ↔
        truthy ([null, null, memberWithImage "Viktor" "/static/img/viktor.png", null, null,
          null].getD i undefined) = false) ∧
      (truthy ([null, null, memberWithImage "Viktor" "/static/img/viktor.png", null, null,
          null].getD i undefined) = false → v = ⟨true, .emptyText⟩) ∧
      (truthy ([null, null, memberWithImage "Viktor" "/static/img/viktor.png", null, null,
          null].getD i undefined) = true → v.emptyClass = false ∧
        ∃ alt, v.content
          = .member alt
            (imageOf ([null, null, memberWithImage "Viktor" "/static/img/viktor.png", null, null,
              null].getD i undefined))
            (nameOf ([null, null, memberWithImage "Viktor" "/static/img/viktor.png", null, null,
              null].getD i undefined))) :=
  updatePartyDisplay_view asciiEnv (stateWith [character "Viktor"] (List.replicate 6 null) null)
    [null, null, memberWithImage "Viktor" "/static/img/viktor.png", null, null, null] rfl rfl

/-- The scenario evaluated: the party view shows the placeholder in positions
0, 1, 3, 4, 5 and Viktor, with his image, in position 2. -/
theorem updatePartyDisplay_scenario :
    (updatePartyDisplay asciiEnv (stateWith [character "Viktor"] (List.replicate 6 null) null)
      (arr [null, null, memberWithImage "Viktor" "/static/img/viktor.png", null, null, null])
      ).state.partyView
      = [⟨true, .emptyText⟩, ⟨true, .emptyText⟩,
         ⟨false, .member (str (js "Viktor")) (str (js "/static/img/viktor.png"))
           (str (js "Viktor"))⟩,
         ⟨true, .emptyText⟩, ⟨true, .emptyText⟩, ⟨true, .emptyText⟩] :=
  rfl

/-- Applying `updatePartyDisplay` twice with the same argument, whatever it is:
the stored party and the party view are those of applying it once. -/
theorem updatePartyDisplay_twice (env : Env) (s : State) (party : JsVal) :
    (updatePartyDisplay env (updatePartyDisplay env s party).state party).state.currentParty
      = (updatePartyDisplay env s party).state.currentParty ∧
    (updatePartyDisplay env (updatePartyDisplay env s party).state party).state.partyView
      = (updatePartyDisplay env s party).state.partyView := by
  rcases updatePartyDisplay_partyView env s party with ⟨slots, h1, _, h3, h4⟩ | ⟨hnot, _, _⟩
  · rcases updatePartyDisplay_partyView env (updatePartyDisplay env s party).state party with
      ⟨slots1, g1, _, g3, g4⟩ | ⟨gnot, g3, g4⟩
    · have : slots1 = slots := by
        rw [h1] at g1
        cases g1
        rfl
      subst this
      refine ⟨by rw [g4, h4], ?_⟩
      rw [g3, h3, renderSlots_idem]
    · exact ⟨g4, g3⟩
  · rcases updatePartyDisplay_partyView env (updatePartyDisplay env s party).state party with
      ⟨slots1, g1, g2, _, _⟩ | ⟨_, g3, g4⟩
    · exact absurd ⟨slots1, g1, g2⟩ hnot
    · exact ⟨g4, g3⟩

/-- C14: idempotence of party rendering.  For every valid six-element party
snapshot and every prior state and view, applying `updatePartyDisplay` with
the snapshot twice in succession yields the same stored party and the same
party view as applying it once. -/
theorem updatePartyDisplay_idempotent (env : Env) (s : State) (slots : List JsVal)
    (hlen : slots.length = 6) :
    (updatePartyDisplay env (updatePartyDisplay env s (arr slots)).state
        (arr slots)).state.currentParty
      = (updatePartyDisplay env s (arr slots)).state.currentParty ∧
    (updatePartyDisplay env (updatePartyDisplay env s (arr slots)).state
        (arr slots)).state.partyView
      = (updatePartyDisplay env s (arr slots)).state.partyView ∧
    (updatePartyDisplay env s (arr slots)).state.currentParty = arr slots :=
  ⟨(updatePartyDisplay_twice env s (arr slots)).1, (updatePartyDisplay_twice env s (arr slots)).2,
    (updatePartyDisplay_stored env s (arr slots)).2.2.2.2.elim (fun h => h.2.1)
      (fun h => absurd ⟨slots, rfl, hlen⟩ h.1)⟩

/-- C14 over a view that already shows Gremio in position 0, with the snapshot
that seats Viktor there. -/
theorem updatePartyDisplay_idempotent_witness :
    (updatePartyDisplay asciiEnv
        (updatePartyDisplay asciiEnv
          { stateWith [character "Viktor"] (List.replicate 6 null) null with
            partyView := ⟨false, .member (str (js "Gremio")) (str (js "/static/img/gremio.png"))
              (str (js "Gremio"))⟩ :: List.replicate 5 ⟨true, .emptyText⟩ }
          (arr (memberWithImage "Viktor" "/static/img/viktor.png" :: List.replicate 5 null))).state
        (arr (memberWithImage "Viktor" "/static/img/viktor.png" :: List.replicate 5 null))
        ).state.currentParty
      = (updatePartyDisplay asciiEnv
          { stateWith [character "Viktor"] (List.replicate 6 null) null with
            partyView := ⟨false, .member (str (js "Gremio")) (str (js "/static/img/gremio.png"))
              (str (js "Gremio"))⟩ :: List.replicate 5 ⟨true, .emptyText⟩ }
          (arr (memberWithImage "Viktor" "/static/img/viktor.png" :: List.replicate 5 null))
          ).state.currentParty ∧
    (updatePartyDisplay asciiEnv
        (updatePartyDisplay asciiEnv
          { stateWith [character "Viktor"] (List.replicate 6 null) null with
            partyView := ⟨false, .member (str (js "Gremio")) (str (js "/static/img/gremio.png"))
              (str (js "Gremio"))⟩ :: List.replicate 5 ⟨true, .emptyText⟩ }
          (arr (memberWithImage "Viktor" "/static/img/viktor.png" :: List.replicate 5 null))).state
        (arr (memberWithImage "Viktor" "/static/img/viktor.png" :: List.replicate 5 null))
        ).state.partyView
      = (updatePartyDisplay asciiEnv
          { stateWith [character "Viktor"] (List.replicate 6 null) null with
            partyView := ⟨false, .member (str (js "Gremio")) (str (js "/static/img/gremio.png"))
              (str (js "Gremio"))⟩ :: List.replicate 5 ⟨true, .emptyText⟩ }
          (arr (memberWithImage "Viktor" "/static/img/viktor.png" :: List.replicate 5 null))
          ).state.partyView ∧
    (updatePartyDisplay asciiEnv
          { stateWith [character "Viktor"] (List.replicate 6 null) null with
            partyView := ⟨false, .member (str (js "Gremio")) (str (js "/static/img/gremio.png"))
              (str (js "Gremio"))⟩ :: List.replicate 5 ⟨true, .emptyText⟩ }
          (arr (memberWithImage "Viktor" "/static/img/viktor.png" :: List.replicate 5 null))
          ).state.currentParty
      = arr (memberWithImage "Viktor" "/static/img/viktor.png" :: List.replicate 5 null) :=
  updatePartyDisplay_idempotent asciiEnv
    { stateWith [character "Viktor"] (List.replicate 6 null) null with
      partyView := ⟨false, .member (str (js "Gremio")) (str (js "/static/img/gremio.png"))
        (str (js "Gremio"))⟩ :: List.replicate 5 ⟨true, .emptyText⟩ }
    (memberWithImage "Viktor" "/static/img/viktor.png" :: List.replicate 5 null) rfl

/-- C15, the code at the failing input: the same snapshot, Viktor in position
0, rendered over two prior views.  Over six empty positions the image of
position 0 gets the `alt` text Viktor.  Over a view reached by first showing
Gremio in position 0, the element is reused and the `alt` text stays Gremio,
under Viktor's image and name.  The two resulting views differ. -/
theorem updatePartyDisplay_keeps_stale_alt :
    (run asciiEnv (initialState emptyDoc)
      [.party_updated (obj [("party",
        arr (memberWithImage "Viktor" "/static/img/viktor.png" :: List.replicate 5 null))])]
      ).partyView[0]?
      = some ⟨false, .member (str (js "Viktor")) (str (js "/static/img/viktor.png"))
          (str (js "Viktor"))⟩ ∧
    (run asciiEnv (initialState emptyDoc)
      [.party_updated (obj [("party",
        arr (memberWithImage "Gremio" "/static/img/gremio.png" :: List.replicate 5 null))]),
       .party_updated (obj [("party",
        arr (memberWithImage "Viktor" "/static/img/viktor.png" :: List.replicate 5 null))])]
      ).partyView[0]?
      = some ⟨false, .member (str (js "Gremio")) (str (js "/static/img/viktor.png"))
          (str (js "Viktor"))⟩ ∧
    (run asciiEnv (initialState emptyDoc)
      [.party_updated (obj [("party",
        arr (memberWithImage "Viktor" "/static/img/viktor.png" :: List.replicate 5 null))])]
      ).partyView
      ≠ (run asciiEnv (initialState emptyDoc)
      [.party_updated (obj [("party",
        arr (memberWithImage "Gremio" "/static/img/gremio.png" :: List.replicate 5 null))]),
       .party_updated (obj [("party",
        arr (memberWithImage "Viktor" "/static/img/viktor.png" :: List.replicate 5 null))])]
      ).partyView := by
  refine ⟨rfl, rfl, ?_⟩
  intro h
  have h0 := congrArg (fun v => v[0]?) h
  have h1 : some (SlotView.mk false (.member (str (js "Viktor"))
      (str (js "/static/img/viktor.png")) (str (js "Viktor"))))
    = some (SlotView.mk false (.member (str (js "Gremio"))
      (str (js "/static/img/viktor.png")) (str (js "Viktor")))) := h0
  have h2 : js "Viktor" = js "Gremio" := by
    injection h1 with h1
    injection h1 with _ h1
    injection h1 with h1
    injection h1
  revert h2
  decide

/-! ## Faults while the initial snapshot is handled (C13) -/

theorem handleInitialData_eq_try (env : Env) (s : State) (data : JsVal) :
    handleInitialData env s data
      = (match initialDataTry env s data with
         | .ok s4 => .ok s4
         | .threw s4 =>
             .ok (showLoadingState (showToast s4 .errorProcessingData .error) false)) :=
  rfl

theorem updatePartyDisplay_loading (env : Env) (s : State) (party : JsVal) :
    (updatePartyDisplay env s party).state.loading = s.loading := by
  unfold updatePartyDisplay
  split
  · split
    · rfl
    · exact (sameButStars_fields (updateStarsList_sameButStars env _)).2.2.2.2.2.2.1
  · rfl

/-- The end of the `try` block after the party step: notices are only added,
and the loading indicator is cleared exactly when the block completes. -/
theorem initialDataTry_tail (env : Env) (o2 : Outcome) :
    ∀ o, (o2.andThen (updateStarsList env)).andThen
          (fun s3 => .ok (showToast (showLoadingState s3 false) .dataLoaded .success)) = o →
      (∃ pre, o.state.toasts = pre ++ o2.state.toasts) ∧
      (o.isThrow = false → o.state.loading = false :: o2.state.loading) ∧
      (o.isThrow = true → o.state.loading = o2.state.loading) := by
  intro o ho
  subst ho
  cases o2 with
  | threw s2 => exact ⟨⟨[], rfl⟩, fun h => by simp [Outcome.andThen, Outcome.isThrow] at h,
      fun _ => rfl⟩
  | ok s2 =>
    have h := sameButStars_fields (updateStarsList_sameButStars env s2)
    simp only [Outcome.andThen, Outcome.state]
    cases hu : updateStarsList env s2 with
    | ok s3 =>
      rw [hu] at h
      simp only [Outcome.state] at h
      refine ⟨⟨[⟨.dataLoaded, .success⟩], ?_⟩, fun _ => ?_,
        fun h1 => by simp [Outcome.isThrow] at h1⟩
      · simp [Outcome.state, showToast, showLoadingState, h.2.2.2.2.2.1]
      · simp [Outcome.state, showToast, showLoadingState, h.2.2.2.2.2.2.1]
    | threw s3 =>
      rw [hu] at h
      simp only [Outcome.state] at h
      refine ⟨⟨[], ?_⟩, fun h1 => by simp [Outcome.isThrow] at h1, fun _ => ?_⟩
      · simpa [Outcome.state] using h.2.2.2.2.2.1
      · simpa [Outcome.state] using h.2.2.2.2.2.2.1

/-- The notices and the loading indicator across the `try` block. -/
theorem initialDataTry_spec (env : Env) (s : State) (data : JsVal) :
    (∃ pre, (initialDataTry env s data).state.toasts = pre ++ s.toasts ∧
      ((charactersWellFormed data = false ∨ partyWellFormed data = false) →
        (initialDataTry env s data).isThrow = true ∨ ∃ t ∈ pre, t.type = ToastType.error)) ∧
    ((initialDataTry env s data).isThrow = false →
      (initialDataTry env s data).state.loading = false :: s.loading) ∧
    ((initialDataTry env s data).isThrow = true →
      (initialDataTry env s data).state.loading = s.loading) := by
  cases hc : getProp data "characters" with
  | none =>
    have hp : getProp data "party" = none := by
      cases data <;> simp [getProp] at hc ⊢
    have htry : initialDataTry env s data = .threw s := by
      simp only [initialDataTry, hc, hp]
    rw [htry]
    exact ⟨⟨[], rfl, fun _ => Or.inl rfl⟩, fun h => by simp [Outcome.isThrow] at h, fun _ => rfl⟩
  | some characters =>
    obtain ⟨party, hp⟩ := getProp_party_of_characters hc
    obtain ⟨s1, hs1⟩ : ∃ s1, s1 = (if truthy characters && isArray characters then
            { s with allCharacters := characters }
          else
            { showToast s .errorLoadingCharacters .error with allCharacters := arr [] }) :=
      ⟨_, rfl⟩
    obtain ⟨o2, ho2⟩ : ∃ o2, o2 = (if truthy party && isArray party then
            updatePartyDisplay env s1 party
          else
            .ok (showToast s1 .errorLoadingParty .error)) := ⟨_, rfl⟩
    have htry : initialDataTry env s data
        = (o2.andThen (updateStarsList env)).andThen
          (fun s3 => .ok (showToast (showLoadingState s3 false) .dataLoaded .success)) := by
      simp only [initialDataTry, hc, hp, ho2, hs1]
    obtain ⟨⟨pre3, h3⟩, hl1, hl2⟩ := initialDataTry_tail env o2 _ htry.symm
    have hup := updatePartyDisplay_stored env s1 party
    have hs1L : s1.loading = s.loading := by
      rw [hs1]; split <;> rfl
    have ho2L : o2.state.loading = s.loading := by
      rw [ho2]; split
      · rw [updatePartyDisplay_loading]; exact hs1L
      · exact hs1L
    have hs1T : ∃ pre1, s1.toasts = pre1 ++ s.toasts ∧
        (charactersWellFormed data = false → ∃ t ∈ pre1, t.type = ToastType.error) := by
      by_cases hcond : (truthy characters && isArray characters) = true
      · refine ⟨[], by rw [hs1, if_pos hcond]; rfl, ?_⟩
        intro hbad
        simp only [charactersWellFormed, hc] at hbad
        cases characters <;> simp_all [isArray]
      · refine ⟨[⟨.errorLoadingCharacters, .error⟩], by rw [hs1, if_neg hcond]; rfl, ?_⟩
        intro _
        exact ⟨_, List.mem_singleton.2 rfl, rfl⟩
    have ho2T : ∃ pre2, o2.state.toasts = pre2 ++ s1.toasts ∧
        (partyWellFormed data = false → ∃ t ∈ pre2, t.type = ToastType.error) := by
      by_cases hcond : (truthy party && isArray party) = true
      · have ho2' : o2 = updatePartyDisplay env s1 party := by rw [ho2, if_pos hcond]
        rcases hup.2.2.2.2 with h | h
        · refine ⟨[], by rw [ho2', h.2.2]; rfl, ?_⟩
          intro hbad
          obtain ⟨⟨slots, rfl, hlen⟩, _⟩ := h
          simp [partyWellFormed, hp, hlen] at hbad
        · refine ⟨[⟨.invalidPartyData, .error⟩], by rw [ho2', h.2.2]; rfl, ?_⟩
          intro _
          exact ⟨_, List.mem_singleton.2 rfl, rfl⟩
      · refine ⟨[⟨.errorLoadingParty, .error⟩], by rw [ho2, if_neg hcond]; rfl, ?_⟩
        intro _
        exact ⟨_, List.mem_singleton.2 rfl, rfl⟩
    obtain ⟨pre1, h1, e1⟩ := hs1T
    obtain ⟨pre2, h2, e2⟩ := ho2T
    refine ⟨⟨pre3 ++ pre2 ++ pre1, by rw [h3, h2, h1]; simp, ?_⟩, ?_, ?_⟩
    · rintro (hbad | hbad)
      · obtain ⟨t, ht, hty⟩ := e1 hbad
        exact Or.inr ⟨t, by simp [ht], hty⟩
      · obtain ⟨t, ht, hty⟩ := e2 hbad
        exact Or.inr ⟨t, by simp [ht], hty⟩
    · intro h
      rw [hl1 h, ho2L]
    · intro h
      rw [hl2 h, ho2L]

/-- C13: for every payload delivered as the initial snapshot, `handleInitialData`
lets no exception out; its last action on the loading indicator is
`showLoadingState(false)`; and when the data handling faults (the `try` block
throws) or a field is malformed, an error notice is surfaced. -/
theorem handleInitialData_contained (env : Env) (s : State) (data : JsVal) :
    (handleInitialData env s data).isThrow = false ∧
    (handleInitialData env s data).state.loading = false :: s.loading ∧
    (((initialDataTry env s data).isThrow = true ∨ charactersWellFormed data = false ∨
        partyWellFormed data = false) →
      ErrorNoticeSince s (handleInitialData env s data).state) := by
  obtain ⟨⟨pre, hpre, herr⟩, hl1, hl2⟩ := initialDataTry_spec env s data
  rw [handleInitialData_eq_try]
  cases h : initialDataTry env s data with
  | ok s4 =>
    rw [h] at hpre herr hl1
    refine ⟨rfl, hl1 rfl, ?_⟩
    rintro (hf | hbad)
    · simp [Outcome.isThrow] at hf
    · rcases herr hbad with hf | ⟨t, ht, hty⟩
      · simp [Outcome.isThrow] at hf
      · exact ⟨pre, hpre, t, ht, hty⟩
  | threw s4 =>
    rw [h] at hpre hl2
    have hl : s4.loading = s.loading := hl2 rfl
    have ht : s4.toasts = pre ++ s.toasts := hpre
    refine ⟨rfl, ?_, fun _ => ⟨⟨.errorProcessingData, .error⟩ :: pre, ?_, _,
      List.mem_cons_self _ _, rfl⟩⟩
    · simp [Outcome.state, showLoadingState, showToast, hl]
    · simp [Outcome.state, showLoadingState, showToast, ht]

/-- C13 at a snapshot whose roster holds an entry without a name: rendering
the roster faults inside the `try` block. -/
theorem handleInitialData_contained_witness :
    (handleInitialData asciiEnv (initialState emptyDoc)
      (obj [("characters", arr [obj []]), ("party", arr (List.replicate 6 null))])).isThrow
      = false ∧
    (handleInitialData asciiEnv (initialState emptyDoc)
      (obj [("characters", arr [obj []]), ("party", arr (List.replicate 6 null))])).state.loading
      = false :: (initialState emptyDoc).loading ∧
    ErrorNoticeSince (initialState emptyDoc)
      (handleInitialData asciiEnv (initialState emptyDoc)
        (obj [("characters", arr [obj []]), ("party", arr (List.replicate 6 null))])).state :=
  ⟨(handleInitialData_contained asciiEnv (initialState emptyDoc)
      (obj [("characters", arr [obj []]), ("party", arr (List.replicate 6 null))])).1,
   (handleInitialData_contained asciiEnv (initialState emptyDoc)
      (obj [("characters", arr [obj []]), ("party", arr (List.replicate 6 null))])).2.1,
   (handleInitialData_contained asciiEnv (initialState emptyDoc)
      (obj [("characters", arr [obj []]), ("party", arr (List.replicate 6 null))])).2.2
      (Or.inl rfl)⟩

/-- The two faulting payloads named by the claim, evaluated: a `null` payload
and a roster entry without a name each end with the notice of the `catch` and
a cleared loading indicator, and the `initial_data` listener clears it again. -/
theorem handleInitialData_fault_scenarios :
    (handleInitialData asciiEnv (initialState emptyDoc) null).state.toasts.map (fun t => t.type)
      = [ToastType.error] ∧
    (handleInitialData asciiEnv (initialState emptyDoc) null).state.loading = [false] ∧
    (handleInitialData asciiEnv (initialState emptyDoc)
      (obj [("characters", arr [obj []]), ("party", arr (List.replicate 6 null))])
      ).state.toasts.map (fun t => t.type) = [ToastType.error] ∧
    (handleInitialData asciiEnv (initialState emptyDoc)
      (obj [("characters", arr [obj []]), ("party", arr (List.replicate 6 null))])
      ).state.loading = [false] ∧
    (onInitialData asciiEnv (initialState emptyDoc) null).state.loading = [false, false] :=
  ⟨rfl, rfl, rfl, rfl, rfl⟩

/-! ## The in-party marks of the roster view (C11) -/

theorem strictEq_str_iff (x : JsVal) (n : JsString) : strictEq x (str n) = true ↔ x = str n := by
  cases x <;> simp [strictEq]

theorem nameOf_of_isCharacter (c : JsVal) (h : isCharacter c = true) :
    nameOf c = str (nameStr c) := by
  unfold isCharacter at h
  unfold nameOf nameStr
  split at h
  · rename_i n hn
    simp [hn]
  · simp at h

theorem isInParty_iff (p : List JsVal) (c : JsVal) (h : isCharacter c = true) :
    isInParty p c = true ↔ ∃ m ∈ p, truthy m = true ∧ nameOf m = str (nameStr c) := by
  simp only [isInParty, List.any_eq_true, sameName, Bool.and_eq_true,
    nameOf_of_isCharacter c h, strictEq_str_iff]

theorem marks_nil (p : List JsVal) : MarksMatchParty p [] := by
  intro text recruited selected c h
  simp at h

theorem marks_single (p : List JsVal) (e : StarElem)
    (h : ∀ text recruited selected c, e ≠ .starName text recruited selected c) :
    MarksMatchParty p [e] := by
  intro text recruited selected c hmem
  exact absurd (List.mem_singleton.1 hmem).symm (h text recruited selected c)

theorem marks_groups (p : List JsVal) (groups : List (JsString × List JsVal))
    (hwf : ∀ g ∈ groups, ∀ c ∈ g.2, isCharacter c = true) :
    MarksMatchParty p (groups.flatMap (groupView p)) := by
  intro text recruited selected c hmem
  obtain ⟨g, hg, he⟩ := List.mem_flatMap.1 hmem
  simp only [groupView, List.mem_cons, List.mem_map, entryOf] at he
  rcases he with he | he | ⟨c1, hc1, he⟩
  · cases he
  · cases he
  · injection he with h1 h2 h3 h4
    subst h1
    subst h2
    exact isInParty_iff p c1 (hwf g hg c1 hc1)

theorem marks_groupsOf (env : Env) (p cs : List JsVal) (keys : List JsString)
    (hwf : ∀ c ∈ cs, isCharacter c = true) :
    MarksMatchParty p ((groupsOf env cs keys).flatMap (groupView p)) := by
  apply marks_groups
  intro g hg c hc
  rw [(mem_groupsOf hg).2] at hc
  exact hwf c (List.mem_filter.1 ((sortBy_perm _ _).subset hc)).1

theorem updateStarsList_empty (env : Env) (s : State) (h : s.allCharacters = arr []) :
    updateStarsList env s = .ok { s with starsView := [.noData] } := by
  simp [updateStarsList, h, truthy, getProp, strictEq]

/-- On a roster of characters with string names and a stored party that is an
array, `updateStarsList` completes and marks the entries after the party. -/
theorem updateStarsList_marks (env : Env) (s : State) (cs p : List JsVal)
    (hroster : s.allCharacters = arr cs) (hwf : ∀ c ∈ cs, isCharacter c = true)
    (hparty : s.currentParty = arr p) :
    ∃ v, updateStarsList env s = .ok { s with starsView := v } ∧ MarksMatchParty p v := by
  by_cases hne : cs = []
  · subst hne
    exact ⟨_, updateStarsList_empty env s hroster, marks_single p _ (by intros; simp)⟩
  · obtain ⟨keys, h1, _⟩ := updateStarsList_wellFormed env s cs p hroster hne hwf hparty
    exact ⟨_, h1, marks_groupsOf env p cs keys hwf⟩

theorem matchesSearch_isSome (env : Env) (term : JsString) (c : JsVal)
    (hc : isCharacter c = true) (hr : roleOk c = true) :
    matchesSearch env term c = some ((matchesSearch env term c).getD false) := by
  unfold isCharacter at hc
  unfold roleOk at hr
  unfold matchesSearch
  split at hc
  · rename_i n hn
    by_cases hinc : includes (env.toLowerCase n) term = true
    · simp [hinc]
    · simp only [hinc, if_false, Bool.false_eq_true]
      generalize (getProp c "role").getD undefined = role at hr ⊢
      cases role with
      | str r => simp
      | undefined => simp [truthy]
      | null => simp [truthy]
      | bool b => simp [truthy] at hr ⊢; simp [hr]
      | num n => simp [truthy] at hr ⊢; simp [hr]
      | arr xs => simp [truthy] at hr
      | obj fs => simp [truthy] at hr
  · simp at hc

/-- On a well-formed roster and a stored party that is an array,
`filterCharacters` completes and marks the entries after the party. -/
theorem filterCharacters_marks (env : Env) (s : State) (cs p : List JsVal) (term : JsString)
    (hroster : s.allCharacters = arr cs)
    (hwf : ∀ c ∈ cs, isCharacter c = true ∧ roleOk c = true)
    (hparty : s.currentParty = arr p) :
    ∃ v, filterCharacters env s term = .ok { s with starsView := v } ∧ MarksMatchParty p v := by
  by_cases hterm : term.isEmpty = true
  · obtain ⟨v, h1, h2⟩ := updateStarsList_marks env s cs p hroster (fun c hc => (hwf c hc).1) hparty
    refine ⟨v, ?_, h2⟩
    have ht : truthy s.allCharacters = true := by rw [hroster]; rfl
    simp only [filterCharacters, ht, hterm, Bool.not_true, Bool.false_eq_true, if_false, if_true]
    exact h1
  · have hfilter := filterO_spec (matchesSearch env term)
      (fun c => (matchesSearch env term c).getD false) cs
      (fun c hc => matchesSearch_isSome env term c (hwf c hc).1 (hwf c hc).2)
    obtain ⟨roster, party, sel, pv, sv, det, toasts, loading, confirms, outbox⟩ := s
    simp only at hroster hparty
    subst hroster
    subst hparty
    simp only [filterCharacters, truthy, hterm, hfilter, Bool.not_true, Bool.false_eq_true,
      if_false]
    by_cases hnil : cs.filter (fun c => (matchesSearch env term c).getD false) = []
    · refine ⟨[.noResults term], by simp [hnil], marks_single p _ (by intros; simp)⟩
    · have hlen : ¬ ((cs.filter (fun c => (matchesSearch env term c).getD false)).length = 0) :=
        fun h => hnil (List.length_eq_zero.1 h)
      simp only [hlen, if_false]
      have hwf1 : ∀ c ∈ cs.filter (fun c => (matchesSearch env term c).getD false),
          isCharacter c = true := fun c hc => (hwf c (List.mem_filter.1 hc).1).1
      obtain ⟨G2, keys, h1, h2, _, _, _⟩ :=
        renderGroups_spec env
          { allCharacters := arr cs, currentParty := arr p, selectedCharacter := sel,
            partyView := pv, starsView := [], detail := det, toasts := toasts,
            loading := loading, confirms := confirms, outbox := outbox }
          p (cs.filter (fun c => (matchesSearch env term c).getD false)) rfl hwf1
      refine ⟨_, by simp only [h1, h2, List.nil_append], marks_groupsOf env p _ keys hwf1⟩

/-- The message `party_updated` that places Viktor in position 2, on a roster
of characters with string names: the party is stored and the roster view is
rendered with marks after the new party. -/
theorem onPartyUpdated_viktorAdded (env : Env) (s : State) (cs : List JsVal)
    (hroster : s.allCharacters = arr cs) (hwf : ∀ c ∈ cs, isCharacter c = true) :
    ∃ r, onPartyUpdated env s viktorAdded = .ok r ∧
      r.currentParty
        = arr [null, null, memberWithImage "Viktor" "/static/img/viktor.png", null, null, null] ∧
      MarksMatchParty
        [null, null, memberWithImage "Viktor" "/static/img/viktor.png", null, null, null]
        r.starsView := by
  obtain ⟨v1, h1, _⟩ := updateStarsList_marks env
    { s with
      currentParty :=
        arr [null, null, memberWithImage "Viktor" "/static/img/viktor.png", null, null, null],
      partyView := renderSlots
        [null, null, memberWithImage "Viktor" "/static/img/viktor.png", null, null, null]
        s.partyView }
    cs [null, null, memberWithImage "Viktor" "/static/img/viktor.png", null, null, null]
    hroster hwf rfl
  have hup : updatePartyDisplay env s
      (arr [null, null, memberWithImage "Viktor" "/static/img/viktor.png", null, null, null])
      = _ := h1
  obtain ⟨v2, h2, hm2⟩ := updateStarsList_marks env
    { s with
      currentParty :=
        arr [null, null, memberWithImage "Viktor" "/static/img/viktor.png", null, null, null],
      partyView := renderSlots
        [null, null, memberWithImage "Viktor" "/static/img/viktor.png", null, null, null]
        s.partyView,
      starsView := v1,
      toasts := ⟨.addedToParty (str (js "Viktor")), .success⟩ :: s.toasts }
    cs [null, null, memberWithImage "Viktor" "/static/img/viktor.png", null, null, null]
    hroster hwf rfl
  refine ⟨{ s with
      currentParty :=
        arr [null, null, memberWithImage "Viktor" "/static/img/viktor.png", null, null, null],
      partyView := renderSlots
        [null, null, memberWithImage "Viktor" "/static/img/viktor.png", null, null, null]
        s.partyView,
      starsView := v2,
      toasts := ⟨.addedToParty (str (js "Viktor")), .success⟩ :: s.toasts }, ?_, rfl, hm2⟩
  show (updatePartyDisplay env s
    (arr [null, null, memberWithImage "Viktor" "/static/img/viktor.png", null, null,
      null])).andThen _ = _
  rw [hup]
  exact h2

theorem viktor_holds_iff (text : JsString) :
    (∃ m ∈ [null, null, memberWithImage "Viktor" "/static/img/viktor.png", null, null, null],
      truthy m = true ∧ nameOf m = str text) ↔ text = js "Viktor" := by
  constructor
  · rintro ⟨m, hm, ht, hn⟩
    simp only [List.mem_cons, List.mem_singleton, List.not_mem_nil, or_false] at hm
    have hm1 : m = null ∨ m = memberWithImage "Viktor" "/static/img/viktor.png" := by
      rcases hm with h | h | h | h | h | h
      · exact Or.inl h
      · exact Or.inl h
      · exact Or.inr h
      · exact Or.inl h
      · exact Or.inl h
      · exact Or.inl h
    rcases hm1 with h | h
    · subst h
      simp [truthy] at ht
    · subst h
      have hn1 : str (js "Viktor") = str text := hn
      injection hn1 with hn1
      exact hn1.symm
  · intro h
    subst h
    exact ⟨memberWithImage "Viktor" "/static/img/viktor.png", by simp, rfl, rfl⟩

/-- C11: for every well-formed roster and every stored party, in the view of
`updateStarsList` and in the view of `filterCharacters` (any search term), an
entry is marked `recruited` exactly when some occupied party position holds a
character whose name equals the entry's name.  With an all-empty party no
entry is marked; and after the `party_updated` message with action `add` that
places Viktor in position 2, exactly the entries named Viktor are marked. -/
theorem roster_marks_match_party (env : Env) (s : State) (cs p : List JsVal)
    (hroster : s.allCharacters = arr cs)
    (hwf : ∀ c ∈ cs, isCharacter c = true ∧ roleOk c = true)
    (hparty : s.currentParty = arr p) :
    MarksMatchParty p (updateStarsList env s).state.starsView ∧
    (∀ term, MarksMatchParty p (filterCharacters env s term).state.starsView) ∧
    ((∀ m ∈ p, truthy m = false) →
      ∀ term text recruited selected c,
        (StarElem.starName text recruited selected c ∈ (updateStarsList env s).state.starsView ∨
         StarElem.starName text recruited selected c
            ∈ (filterCharacters env s term).state.starsView) →
        recruited = false) ∧
    (onPartyUpdated env s viktorAdded).state.currentParty
      = arr [null, null, memberWithImage "Viktor" "/static/img/viktor.png", null, null, null] ∧
    (∀ text recruited selected c,
      StarElem.starName text recruited selected c
          ∈ (onPartyUpdated env s viktorAdded).state.starsView →
        (recruited = true ↔ text = js "Viktor")) := by
  have hwf1 : ∀ c ∈ cs, isCharacter c = true := fun c hc => (hwf c hc).1
  have hU : MarksMatchParty p (updateStarsList env s).state.starsView := by
    obtain ⟨v, h1, h2⟩ := updateStarsList_marks env s cs p hroster hwf1 hparty
    rw [h1]
    exact h2
  have hF : ∀ term, MarksMatchParty p (filterCharacters env s term).state.starsView := by
    intro term
    obtain ⟨v, h1, h2⟩ := filterCharacters_marks env s cs p term hroster hwf hparty
    rw [h1]
    exact h2
  obtain ⟨r, hr, hrp, hrm⟩ := onPartyUpdated_viktorAdded env s cs hroster hwf1
  refine ⟨hU, hF, ?_, by rw [hr]; exact hrp, ?_⟩
  · intro hempty term text recruited selected c hmem
    cases hrec : recruited with
    | false => rfl
    | true =>
      exfalso
      have hex : ∃ m ∈ p, truthy m = true ∧ nameOf m = str text := by
        rcases hmem with h | h
        · exact (hU text recruited selected c h).1 hrec
        · exact (hF term text recruited selected c h).1 hrec
      obtain ⟨m, hm, ht, _⟩ := hex
      rw [hempty m hm] at ht
      exact Bool.noConfusion ht
  · intro text recruited selected c hmem
    rw [hr] at hmem
    exact (hrm text recruited selected c hmem).trans (viktor_holds_iff text)

/-- C11 at the scenario of the specification: the roster Gremio, Viktor, Flik
and an all-empty party. -/
theorem roster_marks_match_party_witness :
    MarksMatchParty (List.replicate 6 null)
      (updateStarsList asciiEnv
        (stateWith [character "Gremio", character "Viktor", character "Flik"]
          (List.replicate 6 null) null)).state.starsView ∧
    (∀ term, MarksMatchParty (List.replicate 6 null)
      (filterCharacters asciiEnv
        (stateWith [character "Gremio", character "Viktor", character "Flik"]
          (List.replicate 6 null) null) term).state.starsView) ∧
    ((∀ m ∈ List.replicate 6 null, truthy m = false) →
      ∀ term text recruited selected c,
        (StarElem.starName text recruited selected c ∈ (updateStarsList asciiEnv
            (stateWith [character "Gremio", character "Viktor", character "Flik"]
              (List.replicate 6 null) null)).state.starsView ∨
         StarElem.starName text recruited selected c ∈ (filterCharacters asciiEnv
            (stateWith [character "Gremio", character "Viktor", character "Flik"]
              (List.replicate 6 null) null) term).state.starsView) →
        recruited = false) ∧
    (onPartyUpdated asciiEnv
        (stateWith [character "Gremio", character "Viktor", character "Flik"]
          (List.replicate 6 null) null) viktorAdded).state.currentParty
      = arr [null, null, memberWithImage "Viktor" "/static/img/viktor.png", null, null, null] ∧
    (∀ text recruited selected c,
      StarElem.starName text recruited selected c ∈ (onPartyUpdated asciiEnv
          (stateWith [character "Gremio", character "Viktor", character "Flik"]
            (List.replicate 6 null) null) viktorAdded).state.starsView →
        (recruited = true ↔ text = js "Viktor")) :=
  roster_marks_match_party asciiEnv
    (stateWith [character "Gremio", character "Viktor", character "Flik"]
      (List.replicate 6 null) null)
    [character "Gremio", character "Viktor", character "Flik"] (List.replicate 6 null)
    rfl (by decide) rfl

/-- The scenario evaluated: after the `party_updated` message that places
Viktor in position 2, the roster view marks Viktor and no one else, also under
the filter `i`, which keeps Gremio, Viktor and Flik. -/
theorem party_updated_scenario :
    (onPartyUpdated asciiEnv
        (stateWith [character "Gremio", character "Viktor", character "Flik"]
          (List.replicate 6 null) null) viktorAdded).state.starsView
      = [.category (js "F"), .divider, .starName (js "Flik") false false (character "Flik"),
         .category (js "G"), .divider, .starName (js "Gremio") false false (character "Gremio"),
         .category (js "V"), .divider, .starName (js "Viktor") true false (character "Viktor")] ∧
    (filterCharacters asciiEnv
        (onPartyUpdated asciiEnv
          (stateWith [character "Gremio", character "Viktor", character "Flik"]
            (List.replicate 6 null) null) viktorAdded).state (js "i")).state.starsView
      = [.category (js "F"), .divider, .starName (js "Flik") false false (character "Flik"),
         .category (js "G"), .divider, .starName (js "Gremio") false false (character "Gremio"),
         .category (js "V"), .divider, .starName (js "Viktor") true false (character "Viktor")] :=
  ⟨rfl, rfl⟩

/-! ## Faults that leave a listener -/

/-- A listener that throws, evaluated: a `server_info` message with a `null`
payload faults on `data.message`; the stored data is untouched and the one
notice shown is the error notice of the window's `error` listener. -/
theorem step_reports_fault :
    (onServerInfo (initialState emptyDoc) null).isThrow = true ∧
    (step asciiEnv (initialState emptyDoc) (.server_info null)).toasts.map (fun n => n.type)
      = [ToastType.error] ∧
    partyLength (step asciiEnv (initialState emptyDoc) (.server_info null)) = some 6 :=
  ⟨rfl, rfl, rfl⟩

end Suikoden
